import Mathlib

/-!
Verification of the TISE save-file core (document model, TI-save serializer,
line-ending detection, entity index, and the load/save façade) against its
natural-language specification.  The Rust source in `src/value.rs` and
`src/save.rs` is translated into Lean definitions below; machine integers
are modelled as `Int`/`Nat` with explicit range conditions where the source
performs range checks, byte vectors as `List Nat`, and `IndexMap` as an
insertion-ordered association list.
-/

/-- Newline constant `statics::NL_LF`. -/
def NL_LF : String := "\n"

/-- Newline constant `statics::NL_CRLF`. -/
def NL_CRLF : String := "\r\n"

/-- Key constant `statics::TI_GAMESTATES`. -/
def TI_GAMESTATES : String := "gamestates"

/-- Key constant `statics::TI_FIELD_KEY_CAP`. -/
def TI_FIELD_KEY_CAP : String := "Key"

/-- Key constant `statics::TI_FIELD_VALUE_CAP`. -/
def TI_FIELD_VALUE_CAP : String := "Value"

/-- Key constant `statics::TI_REF_FIELD_VALUE`. -/
def TI_REF_FIELD_VALUE : String := "value"

/-- Key constant `statics::TI_PROP_DISPLAY_NAME`. -/
def TI_PROP_DISPLAY_NAME : String := "displayName"

/-- Key constant `statics::TI_PROP_NAME`. -/
def TI_PROP_NAME : String := "name"

/-- Key constant `statics::TI_PROP_EVENT_NAME`. -/
def TI_PROP_EVENT_NAME : String := "eventName"

/-- String constant `statics::EN_EMPTY`. -/
def EN_EMPTY : String := ""

/-- Observations the source code makes of an `f64` payload.  The Rust code
never inspects the raw bits of a float: it only calls `is_nan`,
`is_infinite`, `is_sign_negative`, compares with `0.0` and `1e-4`, and
renders it through `ryu::Buffer::format` and `format!("{:e}")`.  Those
observations are recorded here as fields, so the serializer's control flow
over them can be translated exactly while the float arithmetic itself stays
outside the embedding. -/
structure F64Repr where
  is_nan : Bool
  is_infinite : Bool
  is_sign_negative : Bool
  /-- Whether `v == 0.0` holds for the underlying float. -/
  is_zero : Bool
  /-- Whether `v.abs() < 1e-4` holds for the underlying float. -/
  abs_lt_1em4 : Bool
  /-- The shortest round-trippable decimal form, `ryu::Buffer::format(v)`. -/
  ryu_str : String
  /-- The Rust exponential form `format!("{:e}", v)`. -/
  exp_str : String

/-- `TiNumber` from `src/value.rs`: a number preserving the distinction
between I64, U64 and F64 for round-tripping.  The `i64`/`u64` payloads are
modelled as `Int`/`Nat`; the range checks the source performs
(`i64::try_from`) are translated explicitly where they occur. -/
inductive TiNumber where
  | I64 (v : Int)
  | U64 (v : Nat)
  | F64 (r : F64Repr)

/-- `TiNumber::as_i64`: the signed-integer view, `None` for floats and for
unsigned values outside the `i64` range (`i64::try_from(*v).ok()`). -/
def TiNumber.as_i64 : TiNumber → Option Int
  | .I64 v => some v
  | .U64 v => if v ≤ 2 ^ 63 - 1 then some (v : Int) else none
  | .F64 _ => none

/-- `TiValue` from `src/value.rs`: a value in the Terra Invicta save format.
`IndexMap<String, TiValue>` is modelled as an insertion-ordered association
list `List (String × TiValue)`. -/
inductive TiValue where
  | Null
  | Bool (b : Bool)
  | Number (n : TiNumber)
  | Str (s : String)
  | Array (values : List TiValue)
  | Object (map : List (String × TiValue))

/-- `IndexMap::get`: first (and, for maps built by `insert`, only) binding
of a key. -/
def imGet (k : String) : List (String × TiValue) → Option TiValue
  | [] => none
  | (k', v) :: rest => if k' = k then some v else imGet k rest

/-- `IndexMap::insert`: replace the value in place when the key is present
(keeping its position), otherwise append the new binding at the end. -/
def imInsert (k : String) (v : TiValue) : List (String × TiValue) → List (String × TiValue)
  | [] => [(k, v)]
  | (k', v') :: rest => if k' = k then (k', v) :: rest else (k', v') :: imInsert k v rest

/-- `TiValue::as_object`. -/
def TiValue.as_object : TiValue → Option (List (String × TiValue))
  | .Object map => some map
  | _ => none

/-- `TiValue::as_object_mut` (same shape test as `as_object`; mutable access
is modelled by locating the same value). -/
def TiValue.as_object_mut : TiValue → Option (List (String × TiValue))
  | .Object map => some map
  | _ => none

/-- `TiValue::as_array`. -/
def TiValue.as_array : TiValue → Option (List TiValue)
  | .Array values => some values
  | _ => none

/-- `TiValue::as_array_mut`. -/
def TiValue.as_array_mut : TiValue → Option (List TiValue)
  | .Array values => some values
  | _ => none

/-- `TiValue::as_str`. -/
def TiValue.as_str : TiValue → Option String
  | .Str s => some s
  | _ => none

/-- `TiValue::get`: `self.as_object().and_then(|m| m.get(key))`. -/
def TiValue.get (v : TiValue) (key : String) : Option TiValue :=
  v.as_object.bind (imGet key)

/-- `TiValue::get_mut`. -/
def TiValue.get_mut (v : TiValue) (key : String) : Option TiValue :=
  v.as_object_mut.bind (imGet key)

/-- `TiValue::is_relational_ref`: matches an object shape with a `value`
field holding an integer-typed number (optional other fields such as
`$type` are ignored). -/
def TiValue.is_relational_ref (v : TiValue) : Option Int :=
  match v.as_object with
  | none => none
  | some obj =>
    match imGet TI_REF_FIELD_VALUE obj with
    | none => none
    | some value =>
      match value with
      | .Number n => n.as_i64
      | _ => none

/-- One decimal digit as a character (used to model Rust's integer
`Display`, which renders plain decimal). -/
def digit_char (d : Nat) : Char := Char.ofNat (48 + d)

/-- Accumulator loop for decimal rendering: prepends the digits of `n` to
`acc` (empty output for `n = 0`, which the caller special-cases). -/
def natDecimalAux : Nat → List Char → List Char
  | 0, acc => acc
  | n + 1, acc => natDecimalAux ((n + 1) / 10) (digit_char ((n + 1) % 10) :: acc)
decreasing_by exact Nat.div_lt_self (Nat.succ_pos n) (by omega)

/-- Decimal rendering of a `u64` value, modelling `u64::to_string()`. -/
def natDecimal (n : Nat) : String :=
  if n = 0 then "0" else String.mk (natDecimalAux n [])

/-- Decimal rendering of an `i64` value, modelling `i64::to_string()`. -/
def intDecimal (v : Int) : String :=
  if v < 0 then "-" ++ natDecimal v.natAbs else natDecimal v.natAbs

/-- One lowercase hexadecimal digit. -/
def hexDigit (d : Nat) : Char := Char.ofNat (if d < 10 then 48 + d else 87 + d)

/-- Hexadecimal digits of `n`, most significant first. -/
def hexChars : Nat → List Char
  | n =>
    if _h : n < 16 then [hexDigit n]
    else hexChars (n / 16) ++ [hexDigit (n % 16)]
decreasing_by exact Nat.div_lt_self (by omega) (by omega)

/-- Rust's `format!("{:04x}", n)`: lowercase hex, zero-padded to at least
four digits. -/
def hex4 (n : Nat) : String :=
  String.mk (List.replicate (4 - (hexChars n).length) '0' ++ hexChars n)

/-- Rust's `char::is_control`: the Unicode `Cc` category,
`U+0000..U+001F` and `U+007F..U+009F`. -/
def is_rust_control (c : Char) : Bool :=
  c.toNat < 0x20 || (0x7F ≤ c.toNat && c.toNat ≤ 0x9F)

/-- Per-character escaping of `write_escaped_string_ascii` from
`src/value.rs`: backslash, quote, newline, carriage return and tab use the
two-character escapes; other control characters use `\uXXXX` with lowercase
hex; code points above `0x7F` are `\uXXXX`-escaped, with astral-plane
characters encoded as a UTF-16 surrogate pair; everything else is emitted
verbatim. -/
def escape_char_ascii (c : Char) : String :=
  if c = '\\' then "\\\\"
  else if c = '"' then "\\\""
  else if c = '\n' then "\\n"
  else if c = '\r' then "\\r"
  else if c = '\t' then "\\t"
  else if is_rust_control c then "\\u" ++ hex4 c.toNat
  else if c.toNat > 0x7F then
    if c.toNat ≤ 0xFFFF then "\\u" ++ hex4 c.toNat
    else
      "\\u" ++ hex4 (0xD800 + ((c.toNat - 0x10000) >>> 10 &&& 0x3FF)) ++
      "\\u" ++ hex4 (0xDC00 + ((c.toNat - 0x10000) &&& 0x3FF))
  else String.singleton c

/-- `write_escaped_string_ascii` from `src/value.rs`: a double-quoted,
ASCII-only escape of `s`. -/
def write_escaped_string_ascii (s : String) : String :=
  "\"" ++ String.join (s.data.map escape_char_ascii) ++ "\""

/-- Rust's `str::split_once(c)`: the pieces before and after the first
occurrence of `c`, or `none` when `c` does not occur. -/
def splitOnce (s : String) (c : Char) : Option (String × String) :=
  let pre := s.data.takeWhile (fun x => x ≠ c)
  if pre.length = s.data.length then none
  else some (String.mk pre, String.mk (s.data.drop (pre.length + 1)))

/-- Rust's `str::replace('e', "E")` (every occurrence). -/
def replace_e_E (s : String) : String :=
  String.mk (s.data.map (fun c => if c = 'e' then 'E' else c))

/-- Rust's `str::parse::<u32>()` as an `Option`: all-digit, nonempty, and
within `u32` range. -/
def parseU32 (s : String) : Option Nat :=
  if s.data ≠ [] ∧ s.data.all Char.isDigit then
    let n := s.data.foldl (fun a c => a * 10 + (c.toNat - 48)) 0
    if n < 2 ^ 32 then some n else none
  else none

/-- The exponent-normalization done inside `TiNumber::write_ti_save`
(`src/value.rs` lines 336–367): split the `{:e}` form at `'e'`, emit the
mantissa, an uppercase `E`, the sign (`-` kept, `+` only if originally
present), and the exponent digits zero-padded to at least two. -/
def pad_exponent (s : String) : String :=
  match splitOnce s 'e' with
  | some (mantissa, exp) =>
    let sign : Char :=
      match exp.data.head? with
      | some '+' => '+'
      | some '-' => '-'
      | _ => '+'
    let digits : String :=
      match exp.data.head? with
      | some '+' => String.mk exp.data.tail
      | some '-' => String.mk exp.data.tail
      | _ => exp
    let had_plus : Bool := exp.data.head? = some '+'
    let sign_str : String := if sign = '-' then "-" else if had_plus then "+" else ""
    match parseU32 digits with
    | none => mantissa ++ "E" ++ sign_str ++ digits
    | some exp_num =>
      mantissa ++ "E" ++ sign_str ++ (if exp_num < 10 then "0" else "") ++ natDecimal exp_num
  | none => replace_e_E s

/-- `TiNumber::write_json5` from `src/value.rs`: integers in plain decimal;
floats as `NaN`/`Infinity`/`-Infinity`, otherwise the ryu shortest form
with `e` replaced by `E` when present. -/
def TiNumber.write_json5 : TiNumber → String
  | .I64 v => intDecimal v
  | .U64 v => natDecimal v
  | .F64 r =>
    if r.is_nan then "NaN"
    else if r.is_infinite then
      if r.is_sign_negative then "-Infinity" else "Infinity"
    else if r.ryu_str.data.any (fun c => c = 'e') then replace_e_E r.ryu_str
    else r.ryu_str

/-- `TiNumber::write_ti_save` from `src/value.rs`: integers reuse the JSON5
rendering; floats render the special literals, use padded scientific
notation for nonzero magnitudes below `1e-4`, and otherwise fall back to
the JSON5 rendering. -/
def TiNumber.write_ti_save : TiNumber → String
  | .I64 v => TiNumber.write_json5 (.I64 v)
  | .U64 v => TiNumber.write_json5 (.U64 v)
  | .F64 r =>
    if r.is_nan then "NaN"
    else if r.is_infinite then
      if r.is_sign_negative then "-Infinity" else "Infinity"
    else if !r.is_zero && r.abs_lt_1em4 then pad_exponent r.exp_str
    else TiNumber.write_json5 (.F64 r)

/-- The `" ".repeat(indent)` indentation string. -/
def spaces (n : Nat) : String := String.mk (List.replicate n ' ')

mutual

/-- `TiValue::write_ti_save` from `src/value.rs`: the game's multi-line
dialect with 4-space indentation, always-quoted ASCII-escaped keys, the
empty-object quirk, and the newline string as a parameter. -/
def TiValue.write_ti_save (v : TiValue) (indent : Nat) (newline : String) : String :=
  match v with
  | .Null => "null"
  | .Bool b => if b then "true" else "false"
  | .Number n => n.write_ti_save
  | .Str s => write_escaped_string_ascii s
  | .Array values =>
    "[" ++
      (if values.isEmpty then ""
       else newline ++ TiValue.write_ti_save_items values (indent + 4) newline ++ spaces indent) ++
    "]"
  | .Object map =>
    if map.isEmpty then
      "\x7b" ++ newline ++ newline ++ spaces indent ++ "\x7d"
    else
      "\x7b" ++ newline ++ TiValue.write_ti_save_fields map (indent + 4) newline ++
        spaces indent ++ "\x7d"

/-- The array-element loop of `TiValue::write_ti_save`: each element on its
own line at the given indentation, with a comma after every element except
the last. -/
def TiValue.write_ti_save_items (values : List TiValue) (indent : Nat) (newline : String) :
    String :=
  match values with
  | [] => ""
  | [v] => spaces indent ++ TiValue.write_ti_save v indent newline ++ newline
  | v :: rest =>
    spaces indent ++ TiValue.write_ti_save v indent newline ++ "," ++ newline ++
      TiValue.write_ti_save_items rest indent newline

/-- The object-field loop of `TiValue::write_ti_save`: each field as
`"key": value` on its own line, with a comma after every field except the
last. -/
def TiValue.write_ti_save_fields (map : List (String × TiValue)) (indent : Nat)
    (newline : String) : String :=
  match map with
  | [] => ""
  | [(k, v)] =>
    spaces indent ++ write_escaped_string_ascii k ++ ": " ++
      TiValue.write_ti_save v indent newline ++ newline
  | (k, v) :: rest =>
    spaces indent ++ write_escaped_string_ascii k ++ ": " ++
      TiValue.write_ti_save v indent newline ++ "," ++ newline ++
      TiValue.write_ti_save_fields rest indent newline

end

/-- `TiValue::to_ti_save_pretty_with_newline`: serialize from indentation
zero with the given newline string. -/
def TiValue.to_ti_save_pretty_with_newline (v : TiValue) (newline : String) : String :=
  TiValue.write_ti_save v 0 newline

/-- `TiValue::to_ti_save_pretty`: TI-save serialization with LF newlines. -/
def TiValue.to_ti_save_pretty (v : TiValue) : String :=
  v.to_ti_save_pretty_with_newline NL_LF

/-- UTF-8 encoding of one character (Rust `String` stores UTF-8, so
`str::as_bytes` yields this encoding). -/
def utf8Char (c : Char) : List Nat :=
  let n := c.toNat
  if n < 0x80 then [n]
  else if n < 0x800 then [0xC0 ||| (n >>> 6), 0x80 ||| (n &&& 0x3F)]
  else if n < 0x10000 then
    [0xE0 ||| (n >>> 12), 0x80 ||| ((n >>> 6) &&& 0x3F), 0x80 ||| (n &&& 0x3F)]
  else
    [0xF0 ||| (n >>> 18), 0x80 ||| ((n >>> 12) &&& 0x3F),
     0x80 ||| ((n >>> 6) &&& 0x3F), 0x80 ||| (n &&& 0x3F)]

/-- `str::as_bytes` of a Rust string: the UTF-8 byte sequence. -/
def utf8Bytes (s : String) : List Nat :=
  (s.data.map utf8Char).flatten

/-- `SaveFormat` from `src/save.rs`. -/
inductive SaveFormat where
  | Json5
  | GzipJson5
deriving DecidableEq

/-- `LineEnding` from `src/save.rs`. -/
inductive LineEnding where
  | Lf
  | CrLf
deriving DecidableEq

/-- `ObjectSummary` from `src/save.rs`. -/
structure ObjectSummary where
  id : Int
  display_name : String
  index_in_group : Nat

/-- `SaveIndex` from `src/save.rs`.  The two `HashMap`s are modelled as
association lists whose `insert` overwrites an existing binding. -/
structure SaveIndex where
  groups : List String
  objects_by_group : List (String × List ObjectSummary)
  id_lookup : List (Int × (String × Nat))
  id_to_display_name : List (Int × String)

/-- `SaveIndex::empty`. -/
def SaveIndex.empty : SaveIndex :=
  { groups := [], objects_by_group := [], id_lookup := [], id_to_display_name := [] }

/-- `HashMap::get` on the association-list model. -/
def lookupAssoc {α : Type} [DecidableEq α] {β : Type} : List (α × β) → α → Option β
  | [], _ => none
  | (k, v) :: rest, k' => if k = k' then some v else lookupAssoc rest k'

/-- `HashMap::insert` on the association-list model: overwrite the binding
when the key is present, else add it. -/
def insertAssoc {α : Type} [DecidableEq α] {β : Type} :
    List (α × β) → α → β → List (α × β)
  | [], k, v => [(k, v)]
  | (k', v') :: rest, k, v =>
    if k' = k then (k', v) :: rest else (k', v') :: insertAssoc rest k v

/-- `LoadedSave` from `src/save.rs`: a loaded save file preserving its
original bytes.  The `source_path` field is omitted: it is a filesystem
path used only for I/O and display and never read by the operations
verified here. -/
structure LoadedSave where
  format : SaveFormat
  line_ending : LineEnding
  original_bytes : List Nat
  root : TiValue
  dirty : Bool
  index : SaveIndex

/-- The ID extraction of `build_index` (`src/save.rs` lines 269–276):
`item_obj.get("Key")`, viewed as an object, its `value` field, and the
signed-integer view of that number. -/
def build_index_entry_id (item_obj : List (String × TiValue)) : Option Int :=
  ((imGet TI_FIELD_KEY_CAP item_obj).bind TiValue.as_object).bind fun o =>
    match imGet TI_REF_FIELD_VALUE o with
    | some (.Number n) => n.as_i64
    | _ => none

/-- The display-name resolution of `build_index` (`src/save.rs` lines
281–301): the first of `displayName`/`name`/`eventName` on the `Value`
object that is a string whose trimmed form is nonempty, else the empty
string. -/
def build_index_display_name (item_obj : List (String × TiValue)) : String :=
  (((imGet TI_FIELD_VALUE_CAP item_obj).bind TiValue.as_object).bind fun o =>
    [TI_PROP_DISPLAY_NAME, TI_PROP_NAME, TI_PROP_EVENT_NAME].findSome? fun key =>
      (((imGet key o).bind TiValue.as_str).map String.trim).filter (fun s => s ≠ "")
  ).getD EN_EMPTY

/-- The inner loop of `build_index` over one group's array: walks the items
with their positions, and for each item that is an object with a valid
`Key` reference, records the ID in `id_lookup` and `id_to_display_name`
and appends a summary; other items are skipped. -/
def build_index_items (group : String) : List TiValue → Nat → SaveIndex →
    List ObjectSummary → SaveIndex × List ObjectSummary
  | [], _, index, summaries => (index, summaries)
  | item :: rest, idx, index, summaries =>
    match item.as_object with
    | none => build_index_items group rest (idx + 1) index summaries
    | some item_obj =>
      match build_index_entry_id item_obj with
      | none => build_index_items group rest (idx + 1) index summaries
      | some id =>
        let display_name := build_index_display_name item_obj
        build_index_items group rest (idx + 1)
          { index with
              id_lookup := insertAssoc index.id_lookup id (group, idx),
              id_to_display_name := insertAssoc index.id_to_display_name id display_name }
          (summaries ++ [{ id := id, display_name := display_name, index_in_group := idx }])

/-- The outer loop body of `build_index` for one `(group, listitems)` entry
of the `gamestates` object: push the group name, and when the value is an
array, index its items and record the summaries. -/
def build_index_group (index : SaveIndex) (group : String) (listitems : TiValue) : SaveIndex :=
  let index := { index with groups := index.groups ++ [group] }
  match listitems.as_array with
  | none => index
  | some items =>
    let (index, summaries) := build_index_items group items 0 index []
    { index with objects_by_group := insertAssoc index.objects_by_group group summaries }

/-- `build_index` from `src/save.rs`: an empty index when `gamestates` is
absent or not an object, otherwise one pass over the groups. -/
def build_index (root : TiValue) : SaveIndex :=
  match (root.get TI_GAMESTATES).bind TiValue.as_object with
  | none => SaveIndex.empty
  | some gamestates =>
    gamestates.foldl (fun index gv => build_index_group index gv.1 gv.2) SaveIndex.empty

/-- `LoadedSave::rebuild_index`. -/
def LoadedSave.rebuild_index (s : LoadedSave) : LoadedSave :=
  { s with index := build_index s.root }

/-- `LoadedSave::mark_dirty`. -/
def LoadedSave.mark_dirty (s : LoadedSave) : LoadedSave :=
  { s with dirty := true }

/-- `LoadedSave::generate_bytes_for_format` from `src/save.rs`: serialize
the root in TI-save mode with the stored line ending; plain text is the
UTF-8 bytes, gzip output is produced by the external `flate2` encoder,
passed here as the function `gzip` (`none` models an encoder error). -/
def LoadedSave.generate_bytes_for_format (gzip : List Nat → Option (List Nat))
    (s : LoadedSave) (format : SaveFormat) : Option (List Nat) :=
  let newline := match s.line_ending with
    | .Lf => NL_LF
    | .CrLf => NL_CRLF
  let text := s.root.to_ti_save_pretty_with_newline newline
  let text_bytes := utf8Bytes text
  match format with
  | .Json5 => some text_bytes
  | .GzipJson5 => gzip text_bytes

/-- `LoadedSave::refresh_dirty` from `src/save.rs`: recompute `dirty` by
generating bytes for the stored format and comparing with the original
bytes; a generation failure is treated as dirty. -/
def LoadedSave.refresh_dirty (gzip : List Nat → Option (List Nat)) (s : LoadedSave) :
    LoadedSave :=
  match s.generate_bytes_for_format gzip s.format with
  | none => { s with dirty := true }
  | some current => if current = s.original_bytes then { s with dirty := false }
                    else { s with dirty := true }

/-- `LoadedSave::save_bytes_for_format` from `src/save.rs`: the original
bytes verbatim when the document is clean and the requested format equals
the stored format, otherwise freshly generated bytes. -/
def LoadedSave.save_bytes_for_format (gzip : List Nat → Option (List Nat))
    (s : LoadedSave) (format : SaveFormat) : Option (List Nat) :=
  if s.dirty = false ∧ format = s.format then some s.original_bytes
  else s.generate_bytes_for_format gzip format

/-- `LoadedSave::get_object_value` from `src/save.rs`: resolve the ID
through the index, check the stored group against the requested one, then
navigate root → `gamestates` → group array → position → `Value`, returning
`none` on any mismatch. -/
def LoadedSave.get_object_value (s : LoadedSave) (group : String) (object_id : Int) :
    Option (List (String × TiValue)) :=
  match lookupAssoc s.index.id_lookup object_id with
  | none => none
  | some (real_group, idx) =>
    if real_group ≠ group then none
    else
      ((((s.root.get TI_GAMESTATES).bind TiValue.as_object).bind fun gamestates =>
        ((imGet group gamestates).bind TiValue.as_array).bind fun group_list =>
        ((group_list.get? idx).bind TiValue.as_object).bind fun entry =>
        (imGet TI_FIELD_VALUE_CAP entry).bind TiValue.as_object) :
          Option (List (String × TiValue)))

/-- `LoadedSave::get_object_value_mut` from `src/save.rs`: the same
resolution and navigation through the `_mut` accessors (mutable access is
modelled by locating the same value). -/
def LoadedSave.get_object_value_mut (s : LoadedSave) (group : String) (object_id : Int) :
    Option (List (String × TiValue)) :=
  match lookupAssoc s.index.id_lookup object_id with
  | none => none
  | some (real_group, idx) =>
    if real_group ≠ group then none
    else
      ((((s.root.get_mut TI_GAMESTATES).bind TiValue.as_object_mut).bind fun gamestates =>
        ((imGet group gamestates).bind TiValue.as_array_mut).bind fun group_list =>
        ((group_list.get? idx).bind TiValue.as_object_mut).bind fun entry =>
        (imGet TI_FIELD_VALUE_CAP entry).bind TiValue.as_object_mut) :
          Option (List (String × TiValue)))

/-- `detect_line_ending` from `src/save.rs`, written as a single pass that
carries the previous byte: returns the pair (bare-LF count, CRLF count). -/
def count_newlines : Option Nat → List Nat → Nat × Nat
  | _, [] => (0, 0)
  | prev, b :: rest =>
    let counts := count_newlines (some b) rest
    if b = 10 then
      if prev = some 13 then (counts.1, counts.2 + 1) else (counts.1 + 1, counts.2)
    else counts

/-- `detect_line_ending` from `src/save.rs`: CRLF only when the CRLF count
strictly exceeds the bare-LF count, otherwise LF. -/
def detect_line_ending (text_bytes : List Nat) : LineEnding :=
  let counts := count_newlines none text_bytes
  if counts.2 > counts.1 then LineEnding.CrLf else LineEnding.Lf

/-- Setting a property of a value when it is an object (the shape of an
edit made through the editor: `map.insert(key, value)` on an
`IndexMap<String, TiValue>`); any other value is left unchanged. -/
def TiValue.setProp (v : TiValue) (k : String) (newv : TiValue) : TiValue :=
  match v with
  | .Object map => .Object (imInsert k newv map)
  | _ => v

/-- Literal class of a parsed number: which `TiNumber` constructor the
deserialization visitor in `src/value.rs` produces (with its value for the
integer classes). -/
inductive NumClass where
  | i64Class (v : Int)
  | u64Class (v : Nat)
  | f64Class
deriving DecidableEq

/-- Modelled from the spec: the numeric-token classification of the
external `json5` parser crate, which is not under `src/` — only the
visitor it drives (`TiNumber::deserialize`) is.  Per the spec, a token with
no fractional part and no exponent that fits in signed 64-bit range is
dispatched to `visit_i64`; one exceeding that range but fitting unsigned
64-bit goes to `visit_u64`; anything with a decimal point, an exponent, or
the special float literals goes to `visit_f64`.  The visitor then maps
those calls to `I64`/`U64`/`F64` respectively, which this function records
as the resulting class. -/
def classify_number_token (s : String) : Option NumClass :=
  if s = "Infinity" ∨ s = "-Infinity" ∨ s = "NaN" then some .f64Class
  else if s.data.any (fun c => c = '.' ∨ c = 'e' ∨ c = 'E') then some .f64Class
  else
    let neg : Bool := s.data.head? = some '-'
    let ds : List Char := if neg then s.data.tail else s.data
    if ds ≠ [] ∧ ds.all Char.isDigit then
      let n : Nat := ds.foldl (fun a c => a * 10 + (c.toNat - 48)) 0
      if neg then
        if n ≤ 2 ^ 63 then some (.i64Class (-(n : Int))) else some .f64Class
      else if n ≤ 2 ^ 63 - 1 then some (.i64Class (n : Int))
      else if n ≤ 2 ^ 64 - 1 then some (.u64Class n)
      else some .f64Class
    else none

/-- Specification-side count of newline bytes in a byte sequence. -/
def specNlCount (l : List Nat) : Nat := l.countP (fun b => b == 10)

/-- Specification-side count of CRLF terminators: adjacent byte pairs
`(13, 10)`, i.e. newline bytes preceded by a carriage return. -/
def specCrlfCount (l : List Nat) : Nat :=
  (l.zip l.tail).countP (fun p => p.1 == 13 && p.2 == 10)

/-- A character is ASCII when its code point is at most `0x7F`. -/
def asciiChar (c : Char) : Bool := c.toNat ≤ 0x7F

/-- A string is ASCII when all its characters are. -/
def asciiString (s : String) : Bool := s.data.all asciiChar

/-- Both recorded rendering strings of a float observation are ASCII (true
of the actual `ryu` and `{:e}` formatters, which emit only digits, signs,
a decimal point and an exponent marker). -/
def F64Repr.strings_ascii (r : F64Repr) : Bool :=
  asciiString r.ryu_str && asciiString r.exp_str

mutual

/-- Every float payload occurring in the value has ASCII rendering
strings. -/
def floats_ascii : TiValue → Bool
  | .Null => true
  | .Bool _ => true
  | .Number (.I64 _) => true
  | .Number (.U64 _) => true
  | .Number (.F64 r) => r.strings_ascii
  | .Str _ => true
  | .Array values => floats_ascii_list values
  | .Object map => floats_ascii_fields map

/-- `floats_ascii` over a list of values. -/
def floats_ascii_list : List TiValue → Bool
  | [] => true
  | v :: rest => floats_ascii v && floats_ascii_list rest

/-- `floats_ascii` over a list of fields. -/
def floats_ascii_fields : List (String × TiValue) → Bool
  | [] => true
  | (_, v) :: rest => floats_ascii v && floats_ascii_fields rest

end

/-- The success condition of `get_object_value`, stated from the spec's
words: the index maps the ID to the requested group at some position, and
the navigation root → `gamestates` → group array → position → `Value`
succeeds with the expected shape at each step, ending at the property map
`m`. -/
def ObjectValueSpec (s : LoadedSave) (group : String) (object_id : Int)
    (m : List (String × TiValue)) : Prop :=
  ∃ pos gamestates group_list entry,
    lookupAssoc s.index.id_lookup object_id = some (group, pos) ∧
    (s.root.get TI_GAMESTATES).bind TiValue.as_object = some gamestates ∧
    (imGet group gamestates).bind TiValue.as_array = some group_list ∧
    (group_list.get? pos).bind TiValue.as_object = some entry ∧
    (imGet TI_FIELD_VALUE_CAP entry).bind TiValue.as_object = some m

/-- Validity of one index entry `id → (g, pos)` against the document: the
element at position `pos` of the array stored under
root → `gamestates` → `g` exists, is an object, and carries a `Key` field
that is an object whose `value` field is an integer-typed number equal to
`id`. -/
def IndexedEntryValid (root : TiValue) (id : Int) (g : String) (pos : Nat) : Prop :=
  ∃ gamestates listitems items item_obj key_obj n,
    (root.get TI_GAMESTATES).bind TiValue.as_object = some gamestates ∧
    imGet g gamestates = some listitems ∧
    listitems.as_array = some items ∧
    (items.get? pos).bind TiValue.as_object = some item_obj ∧
    (imGet TI_FIELD_KEY_CAP item_obj).bind TiValue.as_object = some key_obj ∧
    imGet TI_REF_FIELD_VALUE key_obj = some (.Number n) ∧
    TiNumber.as_i64 n = some id

/-- Example document: the parse of the file `{ a: 1 }\n`. -/
def exRootA : TiValue := .Object [("a", .Number (.I64 1))]

/-- Example edit-then-revert of the `a` property of `exRootA`. -/
def exRootA2 : TiValue :=
  TiValue.setProp (TiValue.setProp exRootA "a" (.Number (.I64 2))) "a" (.Number (.I64 1))

/-- The `LoadedSave` produced by loading the plain file `{ a: 1 }\n`
(format and line ending as `detect_format`/`detect_line_ending` return
them, original bytes as on disk, freshly built index, dirty = false). -/
def exSaveA : LoadedSave :=
  { format := .Json5, line_ending := .Lf,
    original_bytes := utf8Bytes "\x7b a: 1 \x7d\n",
    root := exRootA, dirty := false, index := build_index exRootA }

/-- A loaded save whose original bytes are exactly the canonical TI-save
serialization of its tree (as for a file previously written by this
tool). -/
def exSaveB : LoadedSave :=
  { format := .Json5, line_ending := .Lf,
    original_bytes := utf8Bytes (TiValue.to_ti_save_pretty_with_newline exRootA NL_LF),
    root := exRootA, dirty := false, index := build_index exRootA }

/-- Example entity record `{ Key: { value: 7 }, Value: { displayName: "X" } }`. -/
def exEntry7 : TiValue :=
  .Object [(TI_FIELD_KEY_CAP, .Object [(TI_REF_FIELD_VALUE, .Number (.I64 7))]),
           (TI_FIELD_VALUE_CAP, .Object [(TI_PROP_DISPLAY_NAME, .Str "X")])]

/-- Example document with a `gamestates` object holding one group `G` with
one entity of ID 7. -/
def exRootG : TiValue :=
  .Object [(TI_GAMESTATES, .Object [("G", .Array [exEntry7])])]

/-- The `LoadedSave` for `exRootG` with its freshly built index. -/
def exSaveG : LoadedSave :=
  { format := .Json5, line_ending := .Lf,
    original_bytes := utf8Bytes (TiValue.to_ti_save_pretty_with_newline exRootG NL_LF),
    root := exRootG, dirty := false, index := build_index exRootG }

/-- The observation record of the float `1.5`: finite, nonzero, magnitude
not below `1e-4`, `ryu` form `1.5`, `{:e}` form `1.5e0`. -/
def exF64_1_5 : F64Repr :=
  { is_nan := false, is_infinite := false, is_sign_negative := false,
    is_zero := false, abs_lt_1em4 := false, ryu_str := "1.5", exp_str := "1.5e0" }

/-- The observation record of the float `2e-5`: finite, nonzero, magnitude
below `1e-4`, `ryu` form `2e-5`, `{:e}` form `2e-5`. -/
def exF64_2em5 : F64Repr :=
  { is_nan := false, is_infinite := false, is_sign_negative := false,
    is_zero := false, abs_lt_1em4 := true, ryu_str := "2e-5", exp_str := "2e-5" }

/-- The observation record of the float `1e-7`: finite, nonzero, magnitude
below `1e-4`, `ryu` form `1e-7`, `{:e}` form `1e-7`. -/
def exF64_1em7 : F64Repr :=
  { is_nan := false, is_infinite := false, is_sign_negative := false,
    is_zero := false, abs_lt_1em4 := true, ryu_str := "1e-7", exp_str := "1e-7" }

/-- The observation record of a NaN float. -/
def exF64_nan : F64Repr :=
  { is_nan := true, is_infinite := false, is_sign_negative := false,
    is_zero := false, abs_lt_1em4 := false, ryu_str := "NaN", exp_str := "NaN" }

theorem imGet_imInsert_cancel (k : String) (vOld vNew : TiValue) :
    ∀ map : List (String × TiValue), imGet k map = some vOld →
      imInsert k vOld (imInsert k vNew map) = map
  | [], h => by simp [imGet] at h
  | (k', v') :: rest, h => by
    by_cases hk : k' = k
    · subst hk
      simp [imGet] at h
      simp [imInsert, h]
    · simp [imGet, hk] at h
      simp [imInsert, hk, imGet_imInsert_cancel k vOld vNew rest h]

theorem setProp_setProp_cancel (v : TiValue) (k : String) (vOld vNew : TiValue)
    (h : v.get k = some vOld) :
    TiValue.setProp (TiValue.setProp v k vNew) k vOld = v := by
  cases v with
  | Object map =>
    simp [TiValue.get, TiValue.as_object] at h
    simp [TiValue.setProp, imGet_imInsert_cancel k vOld vNew map h]
  | Null => simp [TiValue.get, TiValue.as_object] at h
  | Bool b => simp [TiValue.get, TiValue.as_object] at h
  | Number n => simp [TiValue.get, TiValue.as_object] at h
  | Str s => simp [TiValue.get, TiValue.as_object] at h
  | Array values => simp [TiValue.get, TiValue.as_object] at h

/-- C1: for every loaded document whose dirty flag is false and whose
stored format equals the requested format, `save_bytes_for_format` (the
byte computation behind `SaveTo`) returns exactly the stored original
input bytes, byte for byte, rather than re-encoding the value tree. -/
theorem save_bytes_for_format_unmodified_returns_original
    (gzip : List Nat → Option (List Nat)) (s : LoadedSave) (format : SaveFormat)
    (hclean : s.dirty = false) (hfmt : format = s.format) :
    LoadedSave.save_bytes_for_format gzip s format = some s.original_bytes := by
  unfold LoadedSave.save_bytes_for_format
  rw [if_pos ⟨hclean, hfmt⟩]

theorem save_bytes_for_format_unmodified_returns_original_witness :
    exSaveA.dirty = false ∧ SaveFormat.Json5 = exSaveA.format ∧
    LoadedSave.save_bytes_for_format (fun _ => none) exSaveA SaveFormat.Json5 =
      some exSaveA.original_bytes :=
  ⟨rfl, rfl, save_bytes_for_format_unmodified_returns_original _ _ _ rfl rfl⟩

/-- C2 counterexample: the document loaded from the plain file `{ a: 1 }\n`
has `dirty = false`; mutating its `a` property to `2` and then back to its
exact original value `1` restores the original tree, yet `refresh_dirty`
sets the dirty flag to `true` — because the stored original bytes are not
the TI-save re-serialization of the tree, the byte comparison fails even
though nothing was changed. -/
theorem refresh_dirty_revert_counterexample :
    exSaveA.dirty = false ∧
    exRootA2 = exSaveA.root ∧
    (LoadedSave.refresh_dirty (fun _ => none) { exSaveA with root := exRootA2 }).dirty = true := by
  refine ⟨rfl, rfl, ?_⟩
  simp [LoadedSave.refresh_dirty, LoadedSave.generate_bytes_for_format, exSaveA, exRootA,
    exRootA2, TiValue.setProp, imInsert, TiValue.to_ti_save_pretty_with_newline,
    TiValue.write_ti_save, TiValue.write_ti_save_fields, TiNumber.write_ti_save,
    TiNumber.write_json5, intDecimal, natDecimal, natDecimalAux, digit_char,
    write_escaped_string_ascii, escape_char_ascii, is_rust_control, spaces,
    utf8Bytes, utf8Char, NL_LF]

/-- C2 (amended): for a loaded document whose stored original bytes equal
the re-serialization of its tree in the stored format (as for documents
previously written by this tool, whose files are in the canonical TI-save
dialect), mutating a property and then mutating it back to its exact
original value, followed by `RefreshDirty`, leaves the dirty flag false
again — dirty is recomputed by re-serializing the current tree in the
stored format and byte-comparing against the stored original bytes, not by
tracking individual edits. -/
theorem refresh_dirty_false_after_revert_when_canonical
    (gzip : List Nat → Option (List Nat)) (s : LoadedSave) (k : String)
    (vOld vNew : TiValue)
    (_hclean : s.dirty = false)
    (hprop : s.root.get k = some vOld)
    (hcanonical : LoadedSave.generate_bytes_for_format gzip s s.format =
      some s.original_bytes) :
    (LoadedSave.refresh_dirty gzip
      { s with root := TiValue.setProp (TiValue.setProp s.root k vNew) k vOld }).dirty
      = false := by
  rw [setProp_setProp_cancel s.root k vOld vNew hprop]
  show (LoadedSave.refresh_dirty gzip s).dirty = false
  unfold LoadedSave.refresh_dirty
  rw [hcanonical]
  simp

theorem refresh_dirty_false_after_revert_when_canonical_witness :
    exSaveB.dirty = false ∧
    exSaveB.root.get "a" = some (.Number (.I64 1)) ∧
    LoadedSave.generate_bytes_for_format (fun _ => none) exSaveB exSaveB.format =
      some exSaveB.original_bytes ∧
    (LoadedSave.refresh_dirty (fun _ => none)
      { exSaveB with
          root := (TiValue.setProp (TiValue.setProp exSaveB.root "a" (.Number (.I64 2)))
            "a" (.Number (.I64 1))) }).dirty = false :=
  ⟨rfl, rfl, rfl,
    refresh_dirty_false_after_revert_when_canonical _ _ _ _ _ rfl rfl rfl⟩

theorem spaces_length (n : Nat) : (spaces n).length = n := by
  simp [spaces, String.length]

/-- C7: in TI-save mode, for every indent level and for both LF and CRLF
newline parameters, an empty object serializes as `{` followed by two
newlines, the current indentation, and `}` — never as the single-line
`{}`. -/
theorem write_ti_save_empty_object (indent : Nat) (newline : String)
    (h : newline = NL_LF ∨ newline = NL_CRLF) :
    TiValue.write_ti_save (.Object []) indent newline =
      "\x7b" ++ newline ++ newline ++ spaces indent ++ "\x7d" ∧
    TiValue.write_ti_save (.Object []) indent newline ≠ "\x7b\x7d" := by
  have heq : TiValue.write_ti_save (.Object []) indent newline =
      "\x7b" ++ newline ++ newline ++ spaces indent ++ "\x7d" := by
    simp [TiValue.write_ti_save]
  refine ⟨heq, ?_⟩
  intro hcontra
  rw [heq] at hcontra
  have hlen := congrArg String.length hcontra
  have hnl : (1 : Nat) ≤ newline.length := by
    rcases h with h | h <;> subst h <;> decide
  have e1 : ("\x7b" : String).length = 1 := rfl
  have e2 : ("\x7d" : String).length = 1 := rfl
  have e3 : ("\x7b\x7d" : String).length = 2 := rfl
  simp [String.length_append, spaces_length, e1, e2, e3] at hlen
  omega

theorem write_ti_save_empty_object_witness :
    (NL_LF = NL_LF ∨ NL_LF = NL_CRLF) ∧
    (TiValue.write_ti_save (.Object []) 0 NL_LF =
        "\x7b" ++ NL_LF ++ NL_LF ++ spaces 0 ++ "\x7d" ∧
      TiValue.write_ti_save (.Object []) 0 NL_LF ≠ "\x7b\x7d") :=
  ⟨Or.inl rfl, write_ti_save_empty_object 0 NL_LF (Or.inl rfl)⟩

/-- C4 counterexample: the object `{value: 9223372036854775808}` holds an
integer-typed number (the unsigned variant, one above `i64::MAX`) in its
`value` field, yet `is_relational_ref` returns `None` rather than that
number — the signed-integer view fails for unsigned values outside the
`i64` range. -/
theorem is_relational_ref_u64_overflow_counterexample :
    TiValue.is_relational_ref
      (.Object [(TI_REF_FIELD_VALUE, .Number (.U64 9223372036854775808))]) = none := by
  decide

/-- C4 (amended): `is_relational_ref` applied to an object whose `value`
field holds an integer-typed number representable as a signed 64-bit
integer returns `Some` of that number as the target entity ID (`{value:
42}` yields 42, with an optional `$type` field ignored), and returns
`None` when the `value` field holds a float-typed number (`{value:
1.25}`), an unsigned number above `i64::MAX`, when the field is absent, or
when the receiver is not an object. -/
theorem is_relational_ref_characterization :
    (∀ (map : List (String × TiValue)) (k : Int),
        imGet TI_REF_FIELD_VALUE map = some (.Number (.I64 k)) →
        TiValue.is_relational_ref (.Object map) = some k) ∧
    (∀ (map : List (String × TiValue)) (u : Nat), u ≤ 2 ^ 63 - 1 →
        imGet TI_REF_FIELD_VALUE map = some (.Number (.U64 u)) →
        TiValue.is_relational_ref (.Object map) = some (u : Int)) ∧
    (∀ (map : List (String × TiValue)) (u : Nat), 2 ^ 63 - 1 < u →
        imGet TI_REF_FIELD_VALUE map = some (.Number (.U64 u)) →
        TiValue.is_relational_ref (.Object map) = none) ∧
    (∀ (map : List (String × TiValue)) (r : F64Repr),
        imGet TI_REF_FIELD_VALUE map = some (.Number (.F64 r)) →
        TiValue.is_relational_ref (.Object map) = none) ∧
    (∀ map : List (String × TiValue),
        imGet TI_REF_FIELD_VALUE map = none →
        TiValue.is_relational_ref (.Object map) = none) ∧
    (∀ v : TiValue, TiValue.as_object v = none →
        TiValue.is_relational_ref v = none) ∧
    TiValue.is_relational_ref (.Object [("value", .Number (.I64 42))]) = some 42 ∧
    TiValue.is_relational_ref
      (.Object [("$type", .Str "X"), ("value", .Number (.I64 42))]) = some 42 := by
  refine ⟨?_, ?_, ?_, ?_, ?_, ?_, by decide, by decide⟩
  · intro map k h
    simp [TiValue.is_relational_ref, TiValue.as_object, h, TiNumber.as_i64]
  · intro map u hu h
    simp [TiValue.is_relational_ref, TiValue.as_object, h, TiNumber.as_i64]
    omega
  · intro map u hu h
    simp [TiValue.is_relational_ref, TiValue.as_object, h, TiNumber.as_i64]
    omega
  · intro map r h
    simp [TiValue.is_relational_ref, TiValue.as_object, h, TiNumber.as_i64]
  · intro map h
    simp [TiValue.is_relational_ref, TiValue.as_object, h]
  · intro v h
    simp [TiValue.is_relational_ref, h]

theorem is_relational_ref_characterization_witness :
    imGet TI_REF_FIELD_VALUE [("value", TiValue.Number (.I64 5))] =
      some (.Number (.I64 5)) ∧
    TiValue.is_relational_ref (.Object [("value", .Number (.I64 5))]) = some 5 :=
  ⟨rfl, is_relational_ref_characterization.1 [("value", .Number (.I64 5))] 5 rfl⟩

theorem specCrlfCount_nil : specCrlfCount [] = 0 := rfl

theorem specCrlfCount_cons_cons (a b : Nat) (t : List Nat) :
    specCrlfCount (a :: b :: t) =
      (if a = 13 ∧ b = 10 then 1 else 0) + specCrlfCount (b :: t) := by
  simp only [specCrlfCount, List.tail_cons, List.zip_cons_cons, List.countP_cons]
  by_cases h13 : a = 13 <;> by_cases h10 : b = 10 <;>
    simp [h13, h10] <;> omega

theorem specNlCount_cons (b : Nat) (t : List Nat) :
    specNlCount (b :: t) = specNlCount t + (if b = 10 then 1 else 0) := by
  simp only [specNlCount, List.countP_cons]
  by_cases h : b = 10 <;> simp [h]

theorem count_newlines_some_spec : ∀ (l : List Nat) (p : Nat),
    specCrlfCount (p :: l) ≤ specNlCount l ∧
    count_newlines (some p) l =
      (specNlCount l - specCrlfCount (p :: l), specCrlfCount (p :: l))
  | [], p => by simp [count_newlines, specCrlfCount, specNlCount]
  | b :: t, p => by
    obtain ⟨ihle, iheq⟩ := count_newlines_some_spec t b
    by_cases h10 : b = 10
    · subst h10
      by_cases h13 : p = 13
      · subst h13
        rw [specCrlfCount_cons_cons, specNlCount_cons]
        simp [count_newlines, iheq]
        omega
      · rw [specCrlfCount_cons_cons, specNlCount_cons]
        simp [count_newlines, iheq, h13]
        omega
    · rw [specCrlfCount_cons_cons, specNlCount_cons]
      simp [count_newlines, iheq, h10]
      omega

theorem count_newlines_none_spec (l : List Nat) :
    specCrlfCount l ≤ specNlCount l ∧
    count_newlines none l = (specNlCount l - specCrlfCount l, specCrlfCount l) := by
  cases l with
  | nil => simp [count_newlines, specCrlfCount, specNlCount]
  | cons b t =>
    obtain ⟨ihle, iheq⟩ := count_newlines_some_spec t b
    by_cases h10 : b = 10
    · subst h10
      rw [specNlCount_cons]
      simp [count_newlines, iheq]
      omega
    · rw [specNlCount_cons]
      simp [count_newlines, iheq, h10]
      omega

/-- C5: `detect_line_ending` scans the bytes once, counting newline bytes
preceded by a carriage return (CRLF) versus those not preceded by one
(bare LF), and classifies the text as CRLF exactly when the CRLF count
strictly exceeds the bare-LF count; on a tie or empty input it returns
LF. -/
theorem detect_line_ending_majority (l : List Nat) :
    (detect_line_ending l = LineEnding.CrLf ↔
      specNlCount l - specCrlfCount l < specCrlfCount l) ∧
    (specCrlfCount l = specNlCount l - specCrlfCount l →
      detect_line_ending l = LineEnding.Lf) ∧
    detect_line_ending [] = LineEnding.Lf := by
  obtain ⟨hle, heq⟩ := count_newlines_none_spec l
  refine ⟨?_, ?_, rfl⟩
  · unfold detect_line_ending
    rw [heq]
    by_cases h : specNlCount l - specCrlfCount l < specCrlfCount l
    · simp [h]
    · simp [h]
  · intro htie
    unfold detect_line_ending
    rw [heq]
    simp
    omega

theorem detect_line_ending_majority_witness :
    specCrlfCount (utf8Bytes "a\r\nb\n") =
      specNlCount (utf8Bytes "a\r\nb\n") - specCrlfCount (utf8Bytes "a\r\nb\n") ∧
    detect_line_ending (utf8Bytes "a\r\nb\n") = LineEnding.Lf :=
  ⟨by decide, (detect_line_ending_majority (utf8Bytes "a\r\nb\n")).2.1 (by decide)⟩

theorem digit_char_toNat (d : Nat) (h : d < 10) : (digit_char d).toNat = 48 + d := by
  interval_cases d <;> rfl

theorem digit_char_isDigit (d : Nat) (h : d < 10) : (digit_char d).isDigit = true := by
  interval_cases d <;> decide

theorem foldl_digits_seed (l : List Char) : ∀ a : Nat,
    l.foldl (fun a c => a * 10 + (c.toNat - 48)) a =
      a * 10 ^ l.length + l.foldl (fun a c => a * 10 + (c.toNat - 48)) 0 := by
  induction l with
  | nil => intro a; simp
  | cons c t ih =>
    intro a
    simp only [List.foldl_cons, List.length_cons]
    rw [ih (a * 10 + (c.toNat - 48)), ih (0 * 10 + (c.toNat - 48))]
    ring

theorem natDecimalAux_eq_append : ∀ (n : Nat) (acc : List Char),
    natDecimalAux n acc = natDecimalAux n [] ++ acc
  | 0, acc => by simp [natDecimalAux]
  | n + 1, acc => by
    simp only [natDecimalAux]
    rw [natDecimalAux_eq_append ((n + 1) / 10) (digit_char ((n + 1) % 10) :: acc),
      natDecimalAux_eq_append ((n + 1) / 10) [digit_char ((n + 1) % 10)]]
    simp
decreasing_by all_goals exact Nat.div_lt_self (by omega) (by omega)

theorem natDecimalAux_value : ∀ n : Nat,
    (natDecimalAux n []).foldl (fun a c => a * 10 + (c.toNat - 48)) 0 = n ∧
    ∀ c ∈ natDecimalAux n [], c.isDigit = true
  | 0 => by simp [natDecimalAux]
  | n + 1 => by
    obtain ⟨ihval, ihdig⟩ := natDecimalAux_value ((n + 1) / 10)
    constructor
    · simp only [natDecimalAux]
      rw [natDecimalAux_eq_append ((n + 1) / 10) [digit_char ((n + 1) % 10)],
        List.foldl_append, foldl_digits_seed]
      simp [ihval, digit_char_toNat ((n + 1) % 10) (Nat.mod_lt _ (by omega))]
      omega
    · intro c hc
      simp only [natDecimalAux] at hc
      rw [natDecimalAux_eq_append ((n + 1) / 10) [digit_char ((n + 1) % 10)]] at hc
      rcases List.mem_append.mp hc with h | h
      · exact ihdig c h
      · simp at h
        subst h
        exact digit_char_isDigit _ (Nat.mod_lt _ (by omega))
decreasing_by all_goals exact Nat.div_lt_self (by omega) (by omega)

theorem natDecimal_spec (n : Nat) :
    (natDecimal n).data ≠ [] ∧ (∀ c ∈ (natDecimal n).data, c.isDigit = true) ∧
    (natDecimal n).data.foldl (fun a c => a * 10 + (c.toNat - 48)) 0 = n := by
  unfold natDecimal
  by_cases h : n = 0
  · subst h
    refine ⟨by decide, ?_, by decide⟩
    intro c hc
    have : c = '0' := by
      simpa using hc
    subst this
    decide
  · obtain ⟨hval, hdig⟩ := natDecimalAux_value n
    have hdata : (String.mk (natDecimalAux n [])).data = natDecimalAux n [] := rfl
    simp only [h, if_false, hdata]
    refine ⟨?_, hdig, hval⟩
    intro hempty
    rw [hempty] at hval
    simp at hval
    omega

theorem digit_not_special (c : Char) (hd : c.isDigit = true) :
    ¬(c = '.' ∨ c = 'e' ∨ c = 'E') := by
  rintro (rfl | rfl | rfl) <;> exact absurd hd (by decide)

theorem digit_string_not_literal (s : String) (hdig : ∀ c ∈ s.data, c.isDigit = true) :
    ¬(s = "Infinity" ∨ s = "-Infinity" ∨ s = "NaN") := by
  rintro (rfl | rfl | rfl)
  · exact absurd (hdig 'I' (by decide)) (by decide)
  · exact absurd (hdig '-' (by decide)) (by decide)
  · exact absurd (hdig 'N' (by decide)) (by decide)

theorem classify_digit_string (s : String) (hne : s.data ≠ [])
    (hdig : ∀ c ∈ s.data, c.isDigit = true) :
    classify_number_token s =
      (if s.data.foldl (fun a c => a * 10 + (c.toNat - 48)) 0 ≤ 2 ^ 63 - 1 then
        some (.i64Class ((s.data.foldl (fun a c => a * 10 + (c.toNat - 48)) 0 : Nat) : Int))
       else if s.data.foldl (fun a c => a * 10 + (c.toNat - 48)) 0 ≤ 2 ^ 64 - 1 then
        some (.u64Class (s.data.foldl (fun a c => a * 10 + (c.toNat - 48)) 0))
       else some .f64Class) := by
  have hany : (s.data.any fun c => decide (c = '.' ∨ c = 'e' ∨ c = 'E')) = false := by
    rw [List.any_eq_false]
    intro c hc
    simpa using digit_not_special c (hdig c hc)
  have hhead : (decide (s.data.head? = some '-')) = false := by
    cases hd : s.data with
    | nil => simp
    | cons c t =>
      have hcd : c.isDigit = true := hdig c (by rw [hd]; exact List.mem_cons_self _ _)
      simp only [List.head?_cons, decide_eq_false_iff_not]
      intro hcontra
      have : c = '-' := by simpa using hcontra
      subst this
      exact absurd hcd (by decide)
  have hall : s.data.all Char.isDigit = true := List.all_eq_true.mpr hdig
  unfold classify_number_token
  rw [if_neg (digit_string_not_literal s hdig)]
  simp only [hany, Bool.false_eq_true, if_false, hhead]
  rw [if_pos (show s.data ≠ [] ∧ s.data.all Char.isDigit = true from ⟨hne, hall⟩)]

theorem classify_neg_digit_string (s : String) (t : List Char)
    (hdata : s.data = '-' :: t) (hne : t ≠ [])
    (hdig : ∀ c ∈ t, c.isDigit = true) :
    classify_number_token s =
      (if t.foldl (fun a c => a * 10 + (c.toNat - 48)) 0 ≤ 2 ^ 63 then
        some (.i64Class (-(t.foldl (fun a c => a * 10 + (c.toNat - 48)) 0 : Nat)))
       else some .f64Class) := by
  have hnotlit : ¬(s = "Infinity" ∨ s = "-Infinity" ∨ s = "NaN") := by
    rintro (rfl | rfl | rfl)
    · simp at hdata
    · have hmem : 'I' ∈ ('-' :: t : List Char) := by rw [← hdata]; decide
      rcases List.mem_cons.mp hmem with h | h
      · simp at h
      · exact absurd (hdig 'I' h) (by decide)
    · simp at hdata
  have hany2 : (('-' :: t).any fun c => decide (c = '.' ∨ c = 'e' ∨ c = 'E')) = false := by
    rw [List.any_eq_false]
    intro c hc
    rcases List.mem_cons.mp hc with rfl | hc
    · decide
    · simpa using digit_not_special c (hdig c hc)
  unfold classify_number_token
  rw [if_neg hnotlit, hdata]
  rw [if_neg (show ¬(('-' :: t).any fun c => decide (c = '.' ∨ c = 'e' ∨ c = 'E')) = true from
    by rw [hany2]; simp)]
  have hall : t.all Char.isDigit = true := List.all_eq_true.mpr hdig
  simp [hne, hall]

/-- C6: number tokens with no fractional part and no exponent classify by
range — `1` parses as the signed variant, `18446744073709551615` (above
`i64::MAX`, within `u64`) as unsigned, `1.5` as float — and reserializing
preserves the literal class: every in-range `I64` renders to a token that
classifies back as the same signed value, every above-`i64::MAX` `U64`
classifies back as the same unsigned value, and the float `1.5` renders to
`1.5`, which classifies as float. -/
theorem number_literal_class_preservation :
    classify_number_token "1" = some (.i64Class 1) ∧
    classify_number_token "18446744073709551615" =
      some (.u64Class 18446744073709551615) ∧
    classify_number_token "1.5" = some NumClass.f64Class ∧
    (∀ v : Int, -(2 ^ 63) ≤ v → v ≤ 2 ^ 63 - 1 →
      classify_number_token (TiNumber.write_ti_save (.I64 v)) = some (.i64Class v)) ∧
    (∀ n : Nat, 2 ^ 63 ≤ n → n ≤ 2 ^ 64 - 1 →
      classify_number_token (TiNumber.write_ti_save (.U64 n)) = some (.u64Class n)) ∧
    classify_number_token (TiNumber.write_ti_save (.F64 exF64_1_5)) =
      some NumClass.f64Class := by
  refine ⟨by decide, by decide, by decide, ?_, ?_, by decide⟩
  · intro v h1 h2
    show classify_number_token (intDecimal v) = some (.i64Class v)
    unfold intDecimal
    by_cases hv : v < 0
    · rw [if_pos hv]
      obtain ⟨hne, hdig, hval⟩ := natDecimal_spec v.natAbs
      have hdata : ("-" ++ natDecimal v.natAbs).data = '-' :: (natDecimal v.natAbs).data := rfl
      rw [classify_neg_digit_string _ _ hdata hne hdig, hval]
      rw [if_pos (show v.natAbs ≤ 2 ^ 63 by omega)]
      have hcast : (-(v.natAbs : Int)) = v := by omega
      rw [hcast]
    · rw [if_neg hv]
      obtain ⟨hne, hdig, hval⟩ := natDecimal_spec v.natAbs
      rw [classify_digit_string _ hne hdig, hval]
      rw [if_pos (show v.natAbs ≤ 2 ^ 63 - 1 by omega)]
      have hcast : ((v.natAbs : Nat) : Int) = v := by omega
      rw [hcast]
  · intro n h1 h2
    show classify_number_token (natDecimal n) = some (.u64Class n)
    obtain ⟨hne, hdig, hval⟩ := natDecimal_spec n
    rw [classify_digit_string _ hne hdig, hval]
    rw [if_neg (show ¬n ≤ 2 ^ 63 - 1 by omega), if_pos (show n ≤ 2 ^ 64 - 1 by omega)]

theorem number_literal_class_preservation_witness :
    (-(2 ^ 63) ≤ (1 : Int)) ∧ ((1 : Int) ≤ 2 ^ 63 - 1) ∧
    classify_number_token (TiNumber.write_ti_save (.I64 1)) = some (.i64Class 1) :=
  ⟨by decide, by decide,
    number_literal_class_preservation.2.2.2.1 1 (by decide) (by decide)⟩

/-- C9: `get_object_value` returns the entity's `Value` property map
exactly when the index maps the ID to the requested group at some position
and the navigation root → `gamestates` → group array → position → `Value`
succeeds with the expected shape at each step; `get_object_value_mut`
locates the same value; and on any mismatch (ID not in the index, or the
index's stored group differing from the requested group) the result is an
absent `none`, never an error. -/
theorem get_object_value_characterization :
    (∀ (s : LoadedSave) (group : String) (object_id : Int)
        (m : List (String × TiValue)),
      LoadedSave.get_object_value s group object_id = some m ↔
        ObjectValueSpec s group object_id m) ∧
    (∀ (s : LoadedSave) (group : String) (object_id : Int),
      LoadedSave.get_object_value_mut s group object_id =
        LoadedSave.get_object_value s group object_id) ∧
    (∀ (s : LoadedSave) (group : String) (object_id : Int),
      lookupAssoc s.index.id_lookup object_id = none →
      LoadedSave.get_object_value s group object_id = none) ∧
    (∀ (s : LoadedSave) (group real_group : String) (pos : Nat) (object_id : Int),
      lookupAssoc s.index.id_lookup object_id = some (real_group, pos) →
      real_group ≠ group →
      LoadedSave.get_object_value s group object_id = none) := by
  refine ⟨?_, ?_, ?_, ?_⟩
  · intro s group object_id m
    unfold LoadedSave.get_object_value ObjectValueSpec
    constructor
    · intro h
      cases hlook : lookupAssoc s.index.id_lookup object_id with
      | none => rw [hlook] at h; exact absurd h (by simp)
      | some rg_idx =>
        obtain ⟨rg, idx⟩ := rg_idx
        rw [hlook] at h
        dsimp only at h
        by_cases hrg : rg ≠ group
        · rw [if_pos hrg] at h
          exact absurd h (by simp)
        · rw [if_neg hrg] at h
          rw [not_not] at hrg
          subst hrg
          rw [Option.bind_eq_some] at h
          obtain ⟨gamestates, hgs, h⟩ := h
          rw [Option.bind_eq_some] at h
          obtain ⟨group_list, hgl, h⟩ := h
          rw [Option.bind_eq_some] at h
          obtain ⟨entry, hentry, h⟩ := h
          exact ⟨idx, gamestates, group_list, entry, rfl, hgs, hgl, hentry, h⟩
    · rintro ⟨pos, gamestates, group_list, entry, hlook, hgs, hgl, hentry, hval⟩
      rw [hlook]
      dsimp only
      rw [if_neg (by simp)]
      rw [hgs]
      simp only [Option.some_bind]
      rw [hgl]
      simp only [Option.some_bind]
      rw [hentry]
      simp only [Option.some_bind]
      exact hval
  · intro s group object_id
    rfl
  · intro s group object_id h
    unfold LoadedSave.get_object_value
    rw [h]
  · intro s group real_group pos object_id hlook hne
    unfold LoadedSave.get_object_value
    rw [hlook]
    dsimp only
    rw [if_pos hne]

theorem get_object_value_characterization_witness :
    lookupAssoc exSaveG.index.id_lookup 7 = some ("G", 0) ∧ "G" ≠ "H" ∧
    LoadedSave.get_object_value exSaveG "H" 7 = none :=
  ⟨by decide, by decide,
    get_object_value_characterization.2.2.2 exSaveG "H" "G" 0 7 (by decide) (by decide)⟩

theorem asciiString_append (a b : String) :
    asciiString (a ++ b) = (asciiString a && asciiString b) := by
  simp [asciiString, String.data_append, List.all_append]

theorem asciiString_foldl_append : ∀ (l : List String) (s : String),
    asciiString s = true → (∀ x ∈ l, asciiString x = true) →
    asciiString (l.foldl (· ++ ·) s) = true
  | [], s, hs, _ => hs
  | a :: t, s, hs, hl => by
    simp only [List.foldl_cons]
    exact asciiString_foldl_append t (s ++ a)
      (by rw [asciiString_append, hs, hl a (List.mem_cons_self _ _)]; rfl)
      (fun x hx => hl x (List.mem_cons_of_mem _ hx))

theorem asciiString_join (l : List String) (h : ∀ x ∈ l, asciiString x = true) :
    asciiString (String.join l) = true :=
  asciiString_foldl_append l "" rfl h

theorem natDecimalAux_ascii : ∀ n : Nat, ∀ c ∈ natDecimalAux n [], asciiChar c = true
  | 0 => by simp [natDecimalAux]
  | n + 1 => by
    intro c hc
    simp only [natDecimalAux] at hc
    rw [natDecimalAux_eq_append ((n + 1) / 10) [digit_char ((n + 1) % 10)]] at hc
    rcases List.mem_append.mp hc with h | h
    · exact natDecimalAux_ascii ((n + 1) / 10) c h
    · have hd : c = digit_char ((n + 1) % 10) := by simpa using h
      subst hd
      have := digit_char_toNat ((n + 1) % 10) (Nat.mod_lt _ (by omega))
      simp [asciiChar, this]
      omega
decreasing_by all_goals exact Nat.div_lt_self (by omega) (by omega)

theorem natDecimal_ascii (n : Nat) : asciiString (natDecimal n) = true := by
  unfold natDecimal
  by_cases h : n = 0
  · subst h; decide
  · simp only [h, if_false]
    rw [asciiString, List.all_eq_true]
    exact natDecimalAux_ascii n

theorem intDecimal_ascii (v : Int) : asciiString (intDecimal v) = true := by
  unfold intDecimal
  by_cases h : v < 0
  · rw [if_pos h, asciiString_append, natDecimal_ascii]
    rfl
  · rw [if_neg h]
    exact natDecimal_ascii _

theorem hexDigit_ascii (d : Nat) (h : d < 16) : asciiChar (hexDigit d) = true := by
  interval_cases d <;> decide

theorem hexChars_ascii : ∀ n : Nat, ∀ c ∈ hexChars n, asciiChar c = true
  | n => by
    intro c hc
    rw [hexChars] at hc
    by_cases h : n < 16
    · rw [dif_pos h] at hc
      have hd : c = hexDigit n := by simpa using hc
      subst hd
      exact hexDigit_ascii n h
    · rw [dif_neg h] at hc
      rcases List.mem_append.mp hc with hm | hm
      · exact hexChars_ascii (n / 16) c hm
      · have hd : c = hexDigit (n % 16) := by simpa using hm
        subst hd
        exact hexDigit_ascii _ (Nat.mod_lt _ (by omega))
decreasing_by exact Nat.div_lt_self (by omega) (by omega)

theorem hex4_ascii (n : Nat) : asciiString (hex4 n) = true := by
  rw [hex4, asciiString, List.all_eq_true]
  intro c hc
  rcases List.mem_append.mp hc with h | h
  · have : c = '0' := by simpa using (List.eq_of_mem_replicate h)
    subst this; decide
  · exact hexChars_ascii n c h

theorem singleton_ascii (c : Char) (h : c.toNat ≤ 0x7F) :
    asciiString (String.singleton c) = true := by
  simp [asciiString, String.singleton, asciiChar, h]

theorem escape_char_ascii_ascii (c : Char) :
    asciiString (escape_char_ascii c) = true := by
  unfold escape_char_ascii
  split_ifs with h1 h2 h3 h4 h5 h6 h7 h8
  · decide
  · decide
  · decide
  · decide
  · decide
  · rw [asciiString_append]
    rw [hex4_ascii]
    decide
  · rw [asciiString_append]
    rw [hex4_ascii]
    decide
  · rw [asciiString_append, asciiString_append, asciiString_append]
    rw [hex4_ascii, hex4_ascii]
    decide
  · exact singleton_ascii c (by omega)

theorem write_escaped_string_ascii_ascii (s : String) :
    asciiString (write_escaped_string_ascii s) = true := by
  unfold write_escaped_string_ascii
  rw [asciiString_append, asciiString_append]
  rw [asciiString_join _ (by
    intro x hx
    obtain ⟨c, _, rfl⟩ := List.mem_map.mp hx
    exact escape_char_ascii_ascii c)]
  decide

theorem replace_e_E_ascii (s : String) (h : asciiString s = true) :
    asciiString (replace_e_E s) = true := by
  rw [asciiString, List.all_eq_true] at h ⊢
  intro c hc
  have hdata : (replace_e_E s).data = s.data.map fun c => if c = 'e' then 'E' else c := rfl
  rw [hdata] at hc
  obtain ⟨d, hd, rfl⟩ := List.mem_map.mp hc
  by_cases he : d = 'e'
  · subst he; decide
  · simp only [he, if_false]
    exact h d hd

theorem mk_sub_ascii (s : String) (l : List Char) (h : asciiString s = true)
    (hsub : l ⊆ s.data) : asciiString (String.mk l) = true := by
  rw [asciiString, List.all_eq_true] at h ⊢
  intro c hc
  exact h c (hsub hc)

theorem pad_exponent_ascii (s : String) (h : asciiString s = true) :
    asciiString (pad_exponent s) = true := by
  have hEc : asciiString "E" = true := by decide
  have hMc : asciiString "-" = true := by decide
  have hPc : asciiString "+" = true := by decide
  have hNc : asciiString "" = true := by decide
  have h0c : asciiString "0" = true := by decide
  unfold pad_exponent splitOnce
  by_cases hsplit : (s.data.takeWhile fun x => x ≠ 'e').length = s.data.length
  · simp only [hsplit, if_true]
    exact replace_e_E_ascii s h
  · simp only [hsplit, if_false]
    set T : List Char := s.data.takeWhile fun x => decide (x ≠ 'e') with hT
    set L : List Char := s.data.drop (T.length + 1) with hL
    have hmant : asciiString (String.mk T) = true :=
      mk_sub_ascii s T h (by rw [hT]; exact (List.takeWhile_prefix _).subset)
    have hexp : asciiString (String.mk L) = true :=
      mk_sub_ascii s L h (by rw [hL]; exact List.drop_subset _ _)
    have htail : asciiString (String.mk L.tail) = true :=
      mk_sub_ascii s L.tail h
        (by rw [hL]; intro c hc; exact List.drop_subset _ _ (List.tail_subset _ hc))
    split <;> (try split_ifs) <;> (try split) <;>
      simp [asciiString_append, hmant, hexp, htail, natDecimal_ascii, hEc, hMc, hPc, hNc, h0c]

theorem write_json5_number_ascii (n : TiNumber) (h : floats_ascii (.Number n) = true) :
    asciiString (TiNumber.write_json5 n) = true := by
  cases n with
  | I64 v => exact intDecimal_ascii v
  | U64 v => exact natDecimal_ascii v
  | F64 r =>
    have hr : r.strings_ascii = true := by simpa [floats_ascii] using h
    rw [F64Repr.strings_ascii, Bool.and_eq_true] at hr
    unfold TiNumber.write_json5
    dsimp only
    split_ifs with h1 h2 h3 h4
    · decide
    · decide
    · decide
    · exact replace_e_E_ascii _ hr.1
    · exact hr.1

theorem write_ti_save_number_ascii (n : TiNumber) (h : floats_ascii (.Number n) = true) :
    asciiString (TiNumber.write_ti_save n) = true := by
  cases n with
  | I64 v => exact intDecimal_ascii v
  | U64 v => exact natDecimal_ascii v
  | F64 r =>
    have hr : r.strings_ascii = true := by simpa [floats_ascii] using h
    rw [F64Repr.strings_ascii, Bool.and_eq_true] at hr
    unfold TiNumber.write_ti_save
    dsimp only
    split_ifs with h1 h2 h3 h4
    · decide
    · decide
    · decide
    · exact pad_exponent_ascii _ hr.2
    · exact write_json5_number_ascii (.F64 r) h

theorem spaces_ascii (n : Nat) : asciiString (spaces n) = true := by
  rw [spaces, asciiString, List.all_eq_true]
  intro c hc
  have : c = ' ' := List.eq_of_mem_replicate hc
  subst this
  decide

theorem TiValue.induction_on {P : TiValue → Prop}
    (hnull : P .Null) (hbool : ∀ b, P (.Bool b)) (hnum : ∀ n, P (.Number n))
    (hstr : ∀ s, P (.Str s))
    (harr : ∀ values, (∀ v ∈ values, P v) → P (.Array values))
    (hobj : ∀ map, (∀ kv ∈ map, P kv.2) → P (.Object map)) : ∀ v, P v
  | .Null => hnull
  | .Bool b => hbool b
  | .Number n => hnum n
  | .Str s => hstr s
  | .Array values =>
    harr values (fun v _hv =>
      TiValue.induction_on hnull hbool hnum hstr harr hobj v)
  | .Object map =>
    hobj map (fun kv _hkv =>
      TiValue.induction_on hnull hbool hnum hstr harr hobj kv.2)
decreasing_by
  · have h1 := List.sizeOf_lt_of_mem _hv
    simp only [TiValue.Array.sizeOf_spec]
    omega
  · have h1 := List.sizeOf_lt_of_mem _hkv
    obtain ⟨k, v⟩ := kv
    simp only [TiValue.Object.sizeOf_spec, Prod.mk.sizeOf_spec] at h1 ⊢
    omega

theorem floats_ascii_list_mem (values : List TiValue)
    (h : floats_ascii_list values = true) : ∀ v ∈ values, floats_ascii v = true := by
  induction values with
  | nil => intro v hv; simp at hv
  | cons w t ih =>
    simp only [floats_ascii_list, Bool.and_eq_true] at h
    intro v hv
    rcases List.mem_cons.mp hv with rfl | hv
    · exact h.1
    · exact ih h.2 v hv

theorem floats_ascii_fields_mem (map : List (String × TiValue))
    (h : floats_ascii_fields map = true) : ∀ kv ∈ map, floats_ascii kv.2 = true := by
  induction map with
  | nil => intro kv hkv; simp at hkv
  | cons w t ih =>
    obtain ⟨k, v⟩ := w
    simp only [floats_ascii_fields, Bool.and_eq_true] at h
    intro kv hkv
    rcases List.mem_cons.mp hkv with rfl | hkv
    · exact h.1
    · exact ih h.2 kv hkv

theorem write_ti_save_items_ascii (newline : String) (hnl : asciiString newline = true) :
    ∀ (values : List TiValue) (indent : Nat),
      (∀ v ∈ values, ∀ ind : Nat, asciiString (TiValue.write_ti_save v ind newline) = true) →
      asciiString (TiValue.write_ti_save_items values indent newline) = true
  | [], _, _ => by simp [TiValue.write_ti_save_items]; decide
  | [v], indent, hmem => by
    have h1 := hmem v (List.mem_singleton_self v) indent
    simp only [TiValue.write_ti_save_items]
    simp [asciiString_append, spaces_ascii, hnl, h1]
  | v :: w :: t, indent, hmem => by
    have h1 := hmem v (List.mem_cons_self _ _) indent
    have ih := write_ti_save_items_ascii newline hnl (w :: t) indent
      (fun x hx ind => hmem x (List.mem_cons_of_mem _ hx) ind)
    simp only [TiValue.write_ti_save_items]
    simp [asciiString_append, spaces_ascii, hnl, h1, ih]
    decide

theorem write_ti_save_fields_ascii (newline : String) (hnl : asciiString newline = true) :
    ∀ (map : List (String × TiValue)) (indent : Nat),
      (∀ kv ∈ map, ∀ ind : Nat, asciiString (TiValue.write_ti_save kv.2 ind newline) = true) →
      asciiString (TiValue.write_ti_save_fields map indent newline) = true
  | [], _, _ => by simp [TiValue.write_ti_save_fields]; decide
  | [(k, v)], indent, hmem => by
    have h1 := hmem (k, v) (List.mem_singleton_self _) indent
    simp only [TiValue.write_ti_save_fields]
    simp [asciiString_append, spaces_ascii, hnl, h1, write_escaped_string_ascii_ascii]
    decide
  | (k, v) :: w :: t, indent, hmem => by
    have h1 := hmem (k, v) (List.mem_cons_self _ _) indent
    have ih := write_ti_save_fields_ascii newline hnl (w :: t) indent
      (fun x hx ind => hmem x (List.mem_cons_of_mem _ hx) ind)
    simp only [TiValue.write_ti_save_fields]
    simp [asciiString_append, spaces_ascii, hnl, h1, ih, write_escaped_string_ascii_ascii]
    decide

theorem write_ti_save_ascii (newline : String) (hnl : asciiString newline = true) :
    ∀ v : TiValue, floats_ascii v = true → ∀ indent : Nat,
      asciiString (TiValue.write_ti_save v indent newline) = true := by
  intro v
  induction v using TiValue.induction_on with
  | hnull => intro _ indent; simp only [TiValue.write_ti_save]; decide
  | hbool b =>
    intro _ indent
    simp only [TiValue.write_ti_save]
    cases b <;> decide
  | hnum n =>
    intro h indent
    simp only [TiValue.write_ti_save]
    exact write_ti_save_number_ascii n h
  | hstr s =>
    intro _ indent
    simp only [TiValue.write_ti_save]
    exact write_escaped_string_ascii_ascii s
  | harr values ih =>
    intro h indent
    have hmem : ∀ w ∈ values, ∀ ind : Nat,
        asciiString (TiValue.write_ti_save w ind newline) = true := by
      intro w hw ind
      exact ih w hw (floats_ascii_list_mem values (by simpa [floats_ascii] using h) w hw) ind
    simp only [TiValue.write_ti_save]
    split_ifs with he
    · simp [asciiString_append]
      decide
    · have hitems := write_ti_save_items_ascii newline hnl values (indent + 4) hmem
      simp [asciiString_append, hnl, hitems, spaces_ascii]
      decide
  | hobj map ih =>
    intro h indent
    have hmem : ∀ kv ∈ map, ∀ ind : Nat,
        asciiString (TiValue.write_ti_save kv.2 ind newline) = true := by
      intro kv hkv ind
      exact ih kv hkv (floats_ascii_fields_mem map (by simpa [floats_ascii] using h) kv hkv) ind
    simp only [TiValue.write_ti_save]
    split_ifs with he
    · simp [asciiString_append, hnl, spaces_ascii]
      decide
    · have hfields := write_ti_save_fields_ascii newline hnl map (indent + 4) hmem
      simp [asciiString_append, hnl, hfields, spaces_ascii]
      decide

theorem hex4_233 : hex4 233 = "00e9" := by
  have e1 : hexChars 233 = ['e', '9'] := by
    rw [hexChars, dif_neg (by norm_num)]
    rw [show (233 : Nat) / 16 = 14 from by norm_num,
      show (233 : Nat) % 16 = 9 from by norm_num]
    rw [hexChars, dif_pos (by norm_num)]
    decide
  rw [hex4, e1]
  decide

theorem hex4_55357 : hex4 55357 = "d83d" := by
  have e1 : hexChars 55357 = ['d', '8', '3', 'd'] := by
    rw [hexChars, dif_neg (by norm_num)]
    rw [show (55357 : Nat) / 16 = 3459 from by norm_num,
      show (55357 : Nat) % 16 = 13 from by norm_num]
    rw [hexChars, dif_neg (by norm_num)]
    rw [show (3459 : Nat) / 16 = 216 from by norm_num,
      show (3459 : Nat) % 16 = 3 from by norm_num]
    rw [hexChars, dif_neg (by norm_num)]
    rw [show (216 : Nat) / 16 = 13 from by norm_num,
      show (216 : Nat) % 16 = 8 from by norm_num]
    rw [hexChars, dif_pos (by norm_num)]
    decide
  rw [hex4, e1]
  decide

theorem hex4_56832 : hex4 56832 = "de00" := by
  have e1 : hexChars 56832 = ['d', 'e', '0', '0'] := by
    rw [hexChars, dif_neg (by norm_num)]
    rw [show (56832 : Nat) / 16 = 3552 from by norm_num,
      show (56832 : Nat) % 16 = 0 from by norm_num]
    rw [hexChars, dif_neg (by norm_num)]
    rw [show (3552 : Nat) / 16 = 222 from by norm_num,
      show (3552 : Nat) % 16 = 0 from by norm_num]
    rw [hexChars, dif_neg (by norm_num)]
    rw [show (222 : Nat) / 16 = 13 from by norm_num,
      show (222 : Nat) % 16 = 14 from by norm_num]
    rw [hexChars, dif_pos (by norm_num)]
    decide
  rw [hex4, e1]
  decide

/-- C8: in TI-save mode, characters above `0x7F` are escaped as `\uXXXX`
with lowercase hex digits, astral-plane characters as a lowercase UTF-16
surrogate pair (`café` becomes `"café"`, U+1F600 becomes
`😀`), and for every value whose float payloads render to ASCII
strings (as the real `ryu`/`{:e}` formatters do) the TI-save serializer
output, with either newline parameter, consists only of ASCII
characters. -/
theorem ti_save_output_ascii :
    write_escaped_string_ascii "café" = "\"caf\\u00e9\"" ∧
    write_escaped_string_ascii "😀" = "\"\\ud83d\\ude00\"" ∧
    (∀ (v : TiValue) (indent : Nat) (newline : String),
      (newline = NL_LF ∨ newline = NL_CRLF) → floats_ascii v = true →
      asciiString (TiValue.write_ti_save v indent newline) = true) := by
  refine ⟨?_, ?_, ?_⟩
  · have hesc : escape_char_ascii 'é' = "\\u00e9" := by
      have h1 : escape_char_ascii 'é' = "\\u" ++ hex4 ('é'.toNat) := rfl
      rw [h1, show ('é'.toNat) = 233 from rfl, hex4_233]
      decide
    have hd : "café".data = ['c', 'a', 'f', 'é'] := rfl
    rw [write_escaped_string_ascii, hd]
    simp only [List.map_cons, List.map_nil]
    rw [show escape_char_ascii 'c' = "c" from rfl,
      show escape_char_ascii 'a' = "a" from rfl,
      show escape_char_ascii 'f' = "f" from rfl, hesc]
    decide
  · have hesc : escape_char_ascii '😀' = "\\ud83d\\ude00" := by
      have h1 : escape_char_ascii '😀' =
          "\\u" ++ hex4 (0xD800 + (('😀'.toNat - 0x10000) >>> 10 &&& 0x3FF)) ++
          "\\u" ++ hex4 (0xDC00 + (('😀'.toNat - 0x10000) &&& 0x3FF)) := rfl
      rw [h1, show (0xD800 + (('😀'.toNat - 0x10000) >>> 10 &&& 0x3FF)) = 55357 from rfl,
        show (0xDC00 + (('😀'.toNat - 0x10000) &&& 0x3FF)) = 56832 from rfl,
        hex4_55357, hex4_56832]
      decide
    have hd : "😀".data = ['😀'] := rfl
    rw [write_escaped_string_ascii, hd]
    simp only [List.map_cons, List.map_nil]
    rw [hesc]
    decide
  · intro v indent newline hnl hfl
    have hnla : asciiString newline = true := by
      rcases hnl with h | h <;> subst h <;> decide
    exact write_ti_save_ascii newline hnla v hfl indent

theorem ti_save_output_ascii_witness :
    (NL_LF = NL_LF ∨ NL_LF = NL_CRLF) ∧ floats_ascii (.Str "café") = true ∧
    asciiString (TiValue.write_ti_save (.Str "café") 0 NL_LF) = true :=
  ⟨Or.inl rfl, by simp [floats_ascii],
    ti_save_output_ascii.2.2 (.Str "café") 0 NL_LF (Or.inl rfl) (by simp [floats_ascii])⟩

theorem lookupAssoc_insertAssoc {α : Type} [DecidableEq α] {β : Type} :
    ∀ (m : List (α × β)) (k : α) (v : β) (q : α),
      lookupAssoc (insertAssoc m k v) q = if k = q then some v else lookupAssoc m q
  | [], k, v, q => by
    simp only [insertAssoc, lookupAssoc]
  | (ak, av) :: rest, k, v, q => by
    by_cases hak : ak = k
    · subst hak
      by_cases hq : ak = q <;> simp [insertAssoc, lookupAssoc, hq]
    · by_cases hq : ak = q
      · subst hq
        simp [insertAssoc, lookupAssoc, hak, Ne.symm hak]
      · simp [insertAssoc, lookupAssoc, hak, hq, lookupAssoc_insertAssoc rest k v q]

theorem imGet_of_mem_nodup :
    ∀ (m : List (String × TiValue)) (k : String) (v : TiValue),
      (m.map Prod.fst).Nodup → (k, v) ∈ m → imGet k m = some v
  | [], k, v, _, hmem => by simp at hmem
  | (ak, av) :: rest, k, v, hnd, hmem => by
    simp only [List.map_cons, List.nodup_cons] at hnd
    rcases List.mem_cons.mp hmem with heq | hmem
    · rw [Prod.mk.injEq] at heq
      obtain ⟨rfl, rfl⟩ := heq
      simp [imGet]
    · have hne : ak ≠ k := by
        intro hcontra
        subst hcontra
        exact hnd.1 (List.mem_map_of_mem Prod.fst hmem)
      simp only [imGet, hne, if_false]
      exact imGet_of_mem_nodup rest k v hnd.2 hmem

theorem build_index_entry_id_spec (item_obj : List (String × TiValue)) (id : Int)
    (h : build_index_entry_id item_obj = some id) :
    ∃ key_obj n, (imGet TI_FIELD_KEY_CAP item_obj).bind TiValue.as_object = some key_obj ∧
      imGet TI_REF_FIELD_VALUE key_obj = some (.Number n) ∧ TiNumber.as_i64 n = some id := by
  unfold build_index_entry_id at h
  rw [Option.bind_eq_some] at h
  obtain ⟨key_obj, hkey, h⟩ := h
  refine ⟨key_obj, ?_⟩
  cases hval : imGet TI_REF_FIELD_VALUE key_obj with
  | none => rw [hval] at h; simp at h
  | some w =>
    rw [hval] at h
    cases w with
    | Number n => exact ⟨n, hkey, rfl, h⟩
    | Null => simp at h
    | Bool b => simp at h
    | Str s => simp at h
    | Array values => simp at h
    | Object map => simp at h

theorem build_index_items_lookup (group : String) :
    ∀ (items : List TiValue) (start : Nat) (index : SaveIndex)
      (summaries : List ObjectSummary) (id : Int) (g : String) (pos : Nat),
      lookupAssoc (build_index_items group items start index summaries).1.id_lookup id =
        some (g, pos) →
      lookupAssoc index.id_lookup id = some (g, pos) ∨
        (g = group ∧ start ≤ pos ∧
          ∃ item item_obj, items.get? (pos - start) = some item ∧
            item.as_object = some item_obj ∧ build_index_entry_id item_obj = some id)
  | [], start, index, summaries, id, g, pos, h => by
    simp only [build_index_items] at h
    exact Or.inl h
  | item :: rest, start, index, summaries, id, g, pos, h => by
    simp only [build_index_items] at h
    have hshift : ∀ (idx : SaveIndex) (sums : List ObjectSummary),
        lookupAssoc (build_index_items group rest (start + 1) idx sums).1.id_lookup id =
          some (g, pos) →
        lookupAssoc idx.id_lookup id = some (g, pos) ∨
          (g = group ∧ start ≤ pos ∧
            ∃ it it_obj, (item :: rest).get? (pos - start) = some it ∧
              it.as_object = some it_obj ∧ build_index_entry_id it_obj = some id) := by
      intro idx sums hrec
      rcases build_index_items_lookup group rest (start + 1) idx sums id g pos hrec with
        hl | ⟨hg, hle, it, it_obj, hget, hobj, hid⟩
      · exact Or.inl hl
      · refine Or.inr ⟨hg, by omega, it, it_obj, ?_, hobj, hid⟩
        have : pos - start = (pos - (start + 1)) + 1 := by omega
        rw [this, List.get?_cons_succ]
        exact hget
    cases hobj : item.as_object with
    | none =>
      rw [hobj] at h
      dsimp only at h
      exact hshift index summaries h
    | some item_obj =>
      rw [hobj] at h
      dsimp only at h
      cases hid : build_index_entry_id item_obj with
      | none =>
        rw [hid] at h
        dsimp only at h
        exact hshift index summaries h
      | some id' =>
        rw [hid] at h
        dsimp only at h
        rcases hshift _ _ h with hl | hr
        · dsimp only at hl
          rw [lookupAssoc_insertAssoc] at hl
          by_cases hid2 : id' = id
          · rw [if_pos hid2] at hl
            have hpair := Option.some.inj hl
            have hg : group = g := congrArg Prod.fst hpair
            have hpos : start = pos := congrArg Prod.snd hpair
            subst hg
            subst hpos
            refine Or.inr ⟨rfl, le_refl _, item, item_obj, ?_, hobj, ?_⟩
            · simp
            · rw [hid, hid2]
          · rw [if_neg hid2] at hl
            exact Or.inl hl
        · exact Or.inr hr

theorem build_index_items_groups (group : String) :
    ∀ (items : List TiValue) (start : Nat) (index : SaveIndex)
      (summaries : List ObjectSummary),
      (build_index_items group items start index summaries).1.groups = index.groups
  | [], _, _, _ => rfl
  | item :: rest, start, index, summaries => by
    simp only [build_index_items]
    cases item.as_object with
    | none =>
      dsimp only
      exact build_index_items_groups group rest (start + 1) index summaries
    | some item_obj =>
      dsimp only
      cases build_index_entry_id item_obj with
      | none =>
        dsimp only
        exact build_index_items_groups group rest (start + 1) index summaries
      | some id' =>
        dsimp only
        exact build_index_items_groups group rest (start + 1) _ _

theorem build_index_group_groups (index : SaveIndex) (group : String) (li : TiValue) :
    (build_index_group index group li).groups = index.groups ++ [group] := by
  unfold build_index_group
  cases li.as_array with
  | none => rfl
  | some items =>
    dsimp only
    rw [build_index_items_groups]

theorem build_index_group_lookup (index : SaveIndex) (group : String) (li : TiValue)
    (id : Int) (g : String) (pos : Nat)
    (h : lookupAssoc (build_index_group index group li).id_lookup id = some (g, pos)) :
    lookupAssoc index.id_lookup id = some (g, pos) ∨
      (g = group ∧ ∃ items item item_obj, li.as_array = some items ∧
        items.get? pos = some item ∧ item.as_object = some item_obj ∧
        build_index_entry_id item_obj = some id) := by
  unfold build_index_group at h
  cases harr : li.as_array with
  | none => rw [harr] at h; exact Or.inl h
  | some items =>
    rw [harr] at h
    dsimp only at h
    rcases build_index_items_lookup group items 0 _ [] id g pos h with
      hl | ⟨hg, _, item, item_obj, hget, hobj, hid⟩
    · exact Or.inl hl
    · exact Or.inr ⟨hg, items, item, item_obj, rfl, by simpa using hget, hobj, hid⟩

theorem build_index_fold_groups :
    ∀ (gs : List (String × TiValue)) (index : SaveIndex),
      ((gs.foldl (fun i gv => build_index_group i gv.1 gv.2) index)).groups =
        index.groups ++ gs.map Prod.fst
  | [], index => by simp
  | (g0, li0) :: rest, index => by
    simp only [List.foldl_cons]
    rw [build_index_fold_groups rest _, build_index_group_groups]
    simp

theorem build_index_fold_lookup :
    ∀ (gs : List (String × TiValue)) (index : SaveIndex) (id : Int) (g : String) (pos : Nat),
      lookupAssoc ((gs.foldl (fun i gv => build_index_group i gv.1 gv.2) index)).id_lookup id
        = some (g, pos) →
      lookupAssoc index.id_lookup id = some (g, pos) ∨
        ∃ li items item item_obj, (g, li) ∈ gs ∧ li.as_array = some items ∧
          items.get? pos = some item ∧ item.as_object = some item_obj ∧
          build_index_entry_id item_obj = some id
  | [], _, _, _, _, h => Or.inl h
  | (g0, li0) :: rest, index, id, g, pos, h => by
    simp only [List.foldl_cons] at h
    rcases build_index_fold_lookup rest _ id g pos h with
      hl | ⟨li, items, item, item_obj, hmem, hrest⟩
    · rcases build_index_group_lookup index g0 li0 id g pos hl with
        hll | ⟨hg, items, item, item_obj, harr, hget, hobj, hid⟩
      · exact Or.inl hll
      · subst hg
        exact Or.inr ⟨li0, items, item, item_obj, List.mem_cons_self _ _, harr, hget, hobj, hid⟩
    · exact Or.inr ⟨li, items, item, item_obj, List.mem_cons_of_mem _ hmem, hrest⟩

/-- C10: after `build_index` (hence immediately after `load_path` or
`rebuild_index`), provided the `gamestates` map has no duplicate group
keys (always true of a parsed `IndexMap`), every entry `id → (group, pos)`
of `id_lookup` satisfies: the group appears in the index's group list, and
the element at position `pos` of the array stored under
root → `gamestates` → group exists, is an object, and has a `Key` field
that is an object whose `value` field is an integer-typed number equal to
`id` — so elements without such a valid `Key` reference are never indexed;
and when `gamestates` is absent or not an object the index is empty. -/
theorem build_index_invariant (root : TiValue)
    (hnodup : ∀ gsMap, (root.get TI_GAMESTATES).bind TiValue.as_object = some gsMap →
      (gsMap.map Prod.fst).Nodup) :
    (∀ (id : Int) (g : String) (pos : Nat),
      lookupAssoc (build_index root).id_lookup id = some (g, pos) →
      g ∈ (build_index root).groups ∧ IndexedEntryValid root id g pos) ∧
    ((root.get TI_GAMESTATES).bind TiValue.as_object = none →
      build_index root = SaveIndex.empty) := by
  cases hgs : (root.get TI_GAMESTATES).bind TiValue.as_object with
  | none =>
    constructor
    · intro id g pos h
      unfold build_index at h
      rw [hgs] at h
      simp [SaveIndex.empty, lookupAssoc] at h
    · intro _
      unfold build_index
      rw [hgs]
  | some gs =>
    constructor
    · intro id g pos h
      unfold build_index at h
      rw [hgs] at h
      dsimp only at h
      rcases build_index_fold_lookup gs SaveIndex.empty id g pos h with
        hl | ⟨li, items, item, item_obj, hmem, harr, hget, hobj, hid⟩
      · simp [SaveIndex.empty, lookupAssoc] at hl
      · constructor
        · unfold build_index
          rw [hgs]
          dsimp only
          rw [build_index_fold_groups]
          simp only [SaveIndex.empty, List.nil_append]
          exact List.mem_map_of_mem Prod.fst hmem
        · obtain ⟨key_obj, n, hkey, hval, hi64⟩ := build_index_entry_id_spec item_obj id hid
          exact ⟨gs, li, items, item_obj, key_obj, n, hgs,
            imGet_of_mem_nodup gs g li (hnodup gs hgs) hmem, harr,
            by rw [hget]; simpa using hobj, hkey, hval, hi64⟩
    · intro hcontra
      simp at hcontra

theorem build_index_invariant_witness :
    lookupAssoc (build_index exRootG).id_lookup 7 = some ("G", 0) ∧
    "G" ∈ (build_index exRootG).groups ∧ IndexedEntryValid exRootG 7 "G" 0 := by
  have hnd : ∀ gsMap, (exRootG.get TI_GAMESTATES).bind TiValue.as_object = some gsMap →
      (gsMap.map Prod.fst).Nodup := by
    intro gsMap h
    have he : (exRootG.get TI_GAMESTATES).bind TiValue.as_object =
        some [("G", TiValue.Array [exEntry7])] := rfl
    rw [he] at h
    have := Option.some.inj h
    subst this
    decide
  have happly := (build_index_invariant exRootG hnd).1 7 "G" 0 (by decide)
  exact ⟨by decide, happly.1, happly.2⟩

theorem takeWhile_all_append {α : Type} (p : α → Bool) :
    ∀ (l1 : List α) (x : α) (l2 : List α), (∀ c ∈ l1, p c = true) → p x = false →
      (l1 ++ x :: l2).takeWhile p = l1
  | [], x, l2, _, hx => by simp [List.takeWhile_cons, hx]
  | a :: t, x, l2, hall, hx => by
    have ha : p a = true := hall a (List.mem_cons_self _ _)
    simp only [List.cons_append, List.takeWhile_cons, ha, if_true]
    rw [takeWhile_all_append p t x l2 (fun c hc => hall c (List.mem_cons_of_mem _ hc)) hx]

theorem natDecimal_two_le_length (k : Nat) (hk : 10 ≤ k) : 2 ≤ (natDecimal k).length := by
  obtain ⟨hval10, _⟩ := natDecimalAux_value (k / 10)
  have hk0 : ¬k = 0 := by omega
  have hstep : natDecimalAux k [] = natDecimalAux (k / 10) [] ++ [digit_char (k % 10)] := by
    cases k with
    | zero => omega
    | succ n =>
      simp only [natDecimalAux]
      exact natDecimalAux_eq_append _ _
  have hpre : natDecimalAux (k / 10) [] ≠ [] := by
    intro hempty
    rw [hempty] at hval10
    simp at hval10
    omega
  unfold natDecimal
  rw [if_neg hk0]
  have hlen : (String.mk (natDecimalAux k [])).length = (natDecimalAux k []).length := rfl
  rw [hlen, hstep]
  have := List.length_pos.mpr hpre
  simp [List.length_append]
  omega

theorem pad_exponent_shape (s : String) (mdata : List Char) (k : Nat)
    (hdata : s.data = mdata ++ 'e' :: '-' :: (natDecimal k).data)
    (hm : ∀ c ∈ mdata, ¬c = 'e') (hk : k < 2 ^ 32) :
    pad_exponent s =
      String.mk mdata ++ "E" ++ "-" ++ (if k < 10 then "0" else "") ++ natDecimal k := by
  obtain ⟨hne, hdig, hval⟩ := natDecimal_spec k
  unfold pad_exponent splitOnce
  rw [hdata]
  have htake : (mdata ++ 'e' :: '-' :: (natDecimal k).data).takeWhile
      (fun x => decide (x ≠ 'e')) = mdata :=
    takeWhile_all_append _ mdata 'e' _ (fun c hc => by simpa using hm c hc) (by decide)
  rw [htake]
  dsimp only
  have hlen2 : ¬mdata.length = (mdata ++ 'e' :: '-' :: (natDecimal k).data).length := by
    simp [List.length_append]
  rw [if_neg hlen2]
  have hdrop : List.drop (mdata.length + 1) (mdata ++ 'e' :: '-' :: (natDecimal k).data) =
      '-' :: (natDecimal k).data := by
    rw [show mdata ++ 'e' :: '-' :: (natDecimal k).data =
        (mdata ++ ['e']) ++ '-' :: (natDecimal k).data from by simp,
      show mdata.length + 1 = (mdata ++ ['e']).length from by simp]
    exact List.drop_left _ _
  rw [hdrop]
  dsimp only
  simp only [List.head?_cons, List.tail_cons]
  have hparse : parseU32 (String.mk (natDecimal k).data) = some k := by
    unfold parseU32
    rw [if_pos (show (String.mk (natDecimal k).data).data ≠ [] ∧
        (String.mk (natDecimal k).data).data.all Char.isDigit = true from
      ⟨hne, List.all_eq_true.mpr hdig⟩)]
    dsimp only
    rw [hval, if_pos hk]
  rw [hparse]
  simp only [if_true]

theorem write_ti_save_small_float (r : F64Repr) (mdata : List Char) (k : Nat)
    (hn : r.is_nan = false) (hi : r.is_infinite = false) (hz : r.is_zero = false)
    (ha : r.abs_lt_1em4 = true)
    (hdata : r.exp_str.data = mdata ++ 'e' :: '-' :: (natDecimal k).data)
    (hm : ∀ c ∈ mdata, ¬c = 'e') (hk : k < 2 ^ 32) :
    TiNumber.write_ti_save (.F64 r) =
      String.mk mdata ++ "E" ++ "-" ++ (if k < 10 then "0" else "") ++ natDecimal k ∧
    2 ≤ ((if k < 10 then "0" else "") ++ natDecimal k).length := by
  constructor
  · unfold TiNumber.write_ti_save
    dsimp only
    simp only [hn, hi, hz, ha, Bool.false_eq_true, if_false, Bool.not_false, Bool.and_self,
      if_true]
    exact pad_exponent_shape r.exp_str mdata k hdata hm hk
  · by_cases hks : k < 10
    · rw [if_pos hks]
      have h1 : 1 ≤ (natDecimal k).length :=
        List.length_pos.mpr (natDecimal_spec k).1
      rw [String.length_append]
      have hz1 : ("0" : String).length = 1 := rfl
      omega
    · rw [if_neg hks]
      have h2 := natDecimal_two_le_length k (by omega)
      rw [String.length_append]
      have hz2 : ("" : String).length = 0 := rfl
      omega

theorem natDecimal_five : natDecimal 5 = "5" := by
  simp [natDecimal, natDecimalAux, digit_char]

theorem natDecimal_seven : natDecimal 7 = "7" := by
  simp [natDecimal, natDecimalAux, digit_char]

/-- C3: in TI-save mode, every finite nonzero float of magnitude below
`1e-4` (recorded as an `F64Repr` whose `{:e}` observation string has the
mantissa–`e`–negative-exponent shape Rust produces for that range)
serializes in scientific notation with an uppercase `E`, a sign, and an
exponent zero-padded to at least two digits — concretely `2e-5` gives
`2E-05` and `1e-7` gives `1E-07`; every other finite float renders its
recorded ryu shortest form with `e` replaced by `E` when present; NaN and
the two infinities render as their literal names; and the I64 and U64
variants always render as plain decimal (digits with an optional leading
minus). -/
theorem ti_save_float_formatting :
    (∀ (r : F64Repr) (mdata : List Char) (k : Nat),
      r.is_nan = false → r.is_infinite = false → r.is_zero = false →
      r.abs_lt_1em4 = true →
      r.exp_str.data = mdata ++ 'e' :: '-' :: (natDecimal k).data →
      (∀ c ∈ mdata, ¬c = 'e') → k < 2 ^ 32 →
      TiNumber.write_ti_save (.F64 r) =
        String.mk mdata ++ "E" ++ "-" ++ (if k < 10 then "0" else "") ++ natDecimal k ∧
      2 ≤ ((if k < 10 then "0" else "") ++ natDecimal k).length) ∧
    TiNumber.write_ti_save (.F64 exF64_2em5) = "2E-05" ∧
    TiNumber.write_ti_save (.F64 exF64_1em7) = "1E-07" ∧
    (∀ r : F64Repr, r.is_nan = false → r.is_infinite = false →
      (r.is_zero = true ∨ r.abs_lt_1em4 = false) →
      TiNumber.write_ti_save (.F64 r) =
        (if r.ryu_str.data.any (fun c => c = 'e') then replace_e_E r.ryu_str
         else r.ryu_str)) ∧
    (∀ r : F64Repr, r.is_nan = true → TiNumber.write_ti_save (.F64 r) = "NaN") ∧
    (∀ r : F64Repr, r.is_nan = false → r.is_infinite = true →
      TiNumber.write_ti_save (.F64 r) =
        (if r.is_sign_negative then "-Infinity" else "Infinity")) ∧
    (∀ n : Nat, ∀ c ∈ (TiNumber.write_ti_save (.U64 n)).data, c.isDigit = true) ∧
    (∀ v : Int, 0 ≤ v → ∀ c ∈ (TiNumber.write_ti_save (.I64 v)).data, c.isDigit = true) ∧
    (∀ v : Int, v < 0 → ∃ t, (TiNumber.write_ti_save (.I64 v)).data = '-' :: t ∧
      ∀ c ∈ t, c.isDigit = true) := by
  refine ⟨write_ti_save_small_float, ?_, ?_, ?_, ?_, ?_, ?_, ?_, ?_⟩
  · have hdata : exF64_2em5.exp_str.data = ['2'] ++ 'e' :: '-' :: (natDecimal 5).data := by
      rw [natDecimal_five]
      decide
    have h := write_ti_save_small_float exF64_2em5 ['2'] 5 rfl rfl rfl rfl hdata
      (by intro c hc; simp at hc; subst hc; decide) (by norm_num)
    rw [h.1, natDecimal_five]
    decide
  · have hdata : exF64_1em7.exp_str.data = ['1'] ++ 'e' :: '-' :: (natDecimal 7).data := by
      rw [natDecimal_seven]
      decide
    have h := write_ti_save_small_float exF64_1em7 ['1'] 7 rfl rfl rfl rfl hdata
      (by intro c hc; simp at hc; subst hc; decide) (by norm_num)
    rw [h.1, natDecimal_seven]
    decide
  · intro r hn hi hcase
    have hsmall : (!r.is_zero && r.abs_lt_1em4) = false := by
      rcases hcase with h | h <;> simp [h]
    unfold TiNumber.write_ti_save
    dsimp only
    simp only [hn, hi, hsmall, Bool.false_eq_true, if_false]
    unfold TiNumber.write_json5
    dsimp only
    simp only [hn, hi, Bool.false_eq_true, if_false]
  · intro r hn
    unfold TiNumber.write_ti_save
    dsimp only
    simp [hn]
  · intro r hn hi
    unfold TiNumber.write_ti_save
    dsimp only
    simp [hn, hi]
  · intro n
    exact (natDecimal_spec n).2.1
  · intro v hv
    have hneg : ¬v < 0 := by omega
    show ∀ c ∈ (intDecimal v).data, c.isDigit = true
    unfold intDecimal
    rw [if_neg hneg]
    exact (natDecimal_spec _).2.1
  · intro v hv
    refine ⟨(natDecimal v.natAbs).data, ?_, (natDecimal_spec _).2.1⟩
    show (intDecimal v).data = _
    unfold intDecimal
    rw [if_pos hv]
    rfl

theorem ti_save_float_formatting_witness :
    exF64_nan.is_nan = true ∧
    TiNumber.write_ti_save (.F64 exF64_nan) = "NaN" ∧
    TiNumber.write_ti_save (.F64 exF64_2em5) = "2E-05" :=
  ⟨rfl, ti_save_float_formatting.2.2.2.2.1 exF64_nan rfl, ti_save_float_formatting.2.1⟩
